import Mathlib

/-!
# radio_sniffer: channel scan, packet capture and trace formatting

A shallow embedding of `apps/radio_sniffer/radio_sniffer.c`.

* Pure helpers (`flip`, `dDecode`, `nibbleToAscii`, `toBytes`) are functions on `Nat`,
  with `% 2 ^ w` wherever the C code truncates to a `w`-bit unsigned type.
* Stateful code is written in state-passing style over `St`: the program global
  `fOffset`, the radio register `CHANNR`, and the ordered log `log` of every call made
  to a collaborator (register strobes, USB/UART bytes, LEDs, queue release, sleep).
* Values the program reads from the hardware (`getMs()`, `MARCSTATE`, `FREQEST`, the
  receive queue, ...) are supplied by input records, one field per read in program
  order.  A busy-wait loop consumes a finite list of readings and yields `none` when
  the list ends before the loop exits.
* `printf` belongs to the C library: its rendering is the parameter `lib : Formatter`,
  and every character it produces goes through `putchar`, as in the firmware.
-/

namespace RadioSniffer

/-! ## Bit utilities and telemetry decoding -/

/-- XDATA memory as seen through a `uint8 XDATA *`: cell `i` behind the pointer. -/
abbrev Buf := Nat → Nat

/-- The `uint8` load `pkt[i]`. -/
def byteAt (pkt : Buf) (i : Nat) : Nat := pkt i % 256

/-- The conversion `(int8) b` of a byte. -/
def int8 (b : Nat) : Int := if b % 256 < 128 then (b % 256 : Nat) else (b % 256 : Nat) - 256

/-- The nibble reversal table `uint8 lookup[16]`. -/
def lookup : List Nat :=
  [0x0, 0x8, 0x4, 0xC,
   0x2, 0xA, 0x6, 0xE,
   0x1, 0x9, 0x5, 0xD,
   0x3, 0xB, 0x7, 0xF]

/-- `uint8 flip(uint8 n)`: `(lookup[n&0x0F] << 4) | lookup[n>>4]`, returned as `uint8`. -/
def flip (n : Nat) : Nat :=
  ((lookup.getD (n &&& 0x0F) 0 <<< 4) ||| lookup.getD (n >>> 4) 0) % 256

/-- `uint32 dDecode(uint8 offset, uint8 XDATA * pkt)`.  The first shift is done in `int`
and stays below `2 ^ 13`; the second one is a `uint32` shift. -/
def dDecode (offset : Nat) (pkt : Buf) : Nat :=
  let rawValue := (flip (byteAt pkt (offset + 1)) &&& 0x1F) <<< 8
  let rawValue := rawValue ||| flip (byteAt pkt offset)
  let rawValue := (rawValue <<< ((flip (byteAt pkt (offset + 1)) &&& 0xE0) >>> 5)) % 2 ^ 32
  rawValue

/-- `char nibbleToAscii(uint8 nibble)`, the result given as its character code. -/
def nibbleToAscii (nibble : Nat) : Nat :=
  let nibble := nibble &&& 0xF
  if nibble ≤ 0x9 then '0'.toNat + nibble else 'A'.toNat + (nibble - 0xA)

/-- `void toBytes(uint32 n, uint8 bytes[])`: the four bytes stored in `bytes[0..3]`. -/
def toBytes (n : Nat) : List Nat :=
  [(n >>> 24) &&& 0xFF, (n >>> 16) &&& 0xFF, (n >>> 8) &&& 0xFF, n &&& 0xFF]

/-- The buffer `pkt[4] = {0x0E,0x1D,0x3F,0x19}` of `test()`. -/
def test_pkt : Buf := fun i => [0x0E, 0x1D, 0x3F, 0x19].getD i 0

/-- `memcpy(dst, src, n)` on XDATA buffers. -/
def memcpy (dst src : Buf) (n : Nat) : Buf := fun i => if i < n then src i else dst i

/-- `memset(dst, c, n)` on an XDATA buffer. -/
def memset (dst : Buf) (c n : Nat) : Buf := fun i => if i < n then c else dst i

/-! ## Reference notions used to state the properties -/

/-- Bit reversal of an 8-bit value, bit by bit: bit `i` of `n` becomes bit `7 - i`. -/
def bitReverse8 (n : Nat) : Nat :=
  ((List.range 8).map fun i => if n.testBit i then 2 ^ (7 - i) else 0).sum

/-- The four bytes of a 32-bit value, most significant first. -/
def bigEndian4 (n : Nat) : List Nat :=
  [n / 2 ^ 24 % 256, n / 2 ^ 16 % 256, n / 2 ^ 8 % 256, n % 256]

/-- Upper-case hexadecimal digit of a value below 16, as a character code. -/
def hexDigit (d : Nat) : Nat := ("0123456789ABCDEF".toList.getD d '?').toNat

/-! ## Program state, collaborators and hardware inputs -/

/-- The two mode flags `do_verbose` and `usbEnabled`; the program never writes them. -/
structure Config where
  do_verbose : Bool
  usbEnabled : Bool
  deriving DecidableEq, Repr

/-- One call to a collaborator or one write to a radio register. -/
inductive Ev
  | RFST (v : Nat)
  | FSCTRL0 (v : Nat)
  | CHANNR (v : Nat)
  | usbComTxSendByte (c : Nat)
  | uart1TxSendByte (b : Nat)
  | uartEnable
  | uartDisable
  | boardService
  | usbComService
  | LED_YELLOW (lit : Bool)
  | LED_RED (lit : Bool)
  | radioQueueRxDoneWithPacket
  | delayMs (ms : Nat)
  | goToSleep (seconds : Nat)
  deriving DecidableEq, Repr

/-- Mutable program state: the table `fOffset[4]`, the register `CHANNR` (it reads back
what was last written), and the log of collaborator calls in program order. -/
structure St where
  fOffset : List Nat
  CHANNR : Nat
  log : List Ev

/-- The initialiser of `static uint8 fOffset[4]`. -/
def fOffset_init : List Nat := [0xCE, 0xD5, 0xE6, 0xE5]

/-- Record one collaborator call. -/
def St.emit (s : St) (e : Ev) : St := { s with log := s.log ++ [e] }

/-- Rendering done by the C library `printf`: format and arguments to characters. -/
abbrev Formatter := String → List Int → List Nat

/-- `void putchar(char c)`: forwards to USB only when `usbEnabled`. -/
def putchar (cfg : Config) (c : Nat) (s : St) : St :=
  if cfg.usbEnabled then s.emit (Ev.usbComTxSendByte c) else s

/-- A `printf` call: the library renders, each character goes through `putchar`. -/
def printf (lib : Formatter) (cfg : Config) (format : String) (args : List Int) (s : St) : St :=
  (lib format args).foldl (fun s c => putchar cfg c s) s

/-- `void doServices()`. -/
def doServices (cfg : Config) (s : St) : St :=
  if cfg.usbEnabled then (s.emit Ev.boardService).emit Ev.usbComService else s

/-- Hardware values read by one `printPacket` call. -/
structure PrintIn where
  getMs : Nat
  FREQEST : Nat

/-- Hardware values read by one `swap_channel` call; `MARCSTATE` lists the successive
reads made by the idle handshake. -/
structure SwapIn where
  tIdle : Nat
  MARCSTATE : List Nat
  tChannel : Nat
  tState : Nat
  marcAfter : Nat

/-- The queue reports a packet; the values read while it is handled. -/
structure RxIn where
  packet : Buf
  radioCrcPassed : Bool
  fOff : Nat
  FREQEST : Nat
  tReport : Nat
  radioRssi : Int
  radioLqi : Nat
  tReport2 : Nat
  print1 : PrintIn
  print2 : PrintIn

/-- One iteration of the poll loop: `getMs()` of the loop condition, `getMs()` of the
blink computation, result of `radioQueueRxCurrentPacket()`. -/
structure PollIn where
  tCond : Nat
  tLed : Nat
  rx : Option RxIn

/-- Hardware values read by one `WaitForPacket` call. -/
structure WaitIn where
  start : Nat
  swap : SwapIn
  polls : List PollIn
  tTimeout : Nat

/-- Hardware values read by one `printPacketIfNeeded` call; `goodPacket0` is the content
of the local array before `memset`. -/
structure CycleIn where
  goodPacket0 : Buf
  wait : Nat → WaitIn
  summary : PrintIn
  tSleep : Nat
  tWake : Nat

/-! ## Formatter -/

/-- `void printPacket(uint8 XDATA * pkt)`.  `uartEnable()` and `uartDisable()` are
recorded as calls. -/
def printPacket (lib : Formatter) (cfg : Config) (pkt : Buf) (hw : PrintIn) (s : St) : St :=
  let len := byteAt pkt 0
  let s :=
    if cfg.do_verbose then
      let s := printf lib cfg "%lu \t" [((hw.getMs % 2 ^ 32 : Nat) : Int)] s
      let s := putchar cfg (if byteAt pkt (len + 2) &&& 0x80 ≠ 0 then ' '.toNat else '!'.toNat) s
      let s := putchar cfg ' '.toNat s
      let s := printf lib cfg "R:%4d " [Int.tdiv (int8 (byteAt pkt (len + 1))) 2 - 71] s
      let s := printf lib cfg "L:%4d " [((byteAt pkt (len + 2) &&& 0x7F : Nat) : Int)] s
      let s := printf lib cfg "O:%4d " [((hw.FREQEST % 256 : Nat) : Int)] s
      let s := printf lib cfg "C:%4d " [((s.CHANNR : Nat) : Int)] s
      let s := printf lib cfg "s:%4d " [((byteAt pkt 11 : Nat) : Int)] s
      let s := [12, 13, 14, 15].foldl (fun s j =>
        let s := putchar cfg (nibbleToAscii (byteAt pkt j >>> 4)) s
        let s := putchar cfg (nibbleToAscii (byteAt pkt j)) s
        if j ≠ 15 then putchar cfg '-'.toNat s else s) s
      let s := printf lib cfg "\t%lu \t%lu"
        [((dDecode 12 pkt : Nat) : Int), ((dDecode 14 pkt * 2 % 2 ^ 32 : Nat) : Int)] s
      let s := putchar cfg '\r'.toNat s
      putchar cfg '\n'.toNat s
    else s
  if !cfg.usbEnabled then
    let s := s.emit Ev.uartEnable
    let s := s.emit (Ev.uart1TxSendByte 0x05)
    let bytes := toBytes (dDecode 12 pkt)
    let s := [0, 1, 2, 3].foldl (fun s j => s.emit (Ev.uart1TxSendByte (bytes.getD j 0))) s
    let s := s.emit (Ev.uart1TxSendByte 0x06)
    let bytes := toBytes (dDecode 14 pkt * 2 % 2 ^ 32)
    let s := [0, 1, 2, 3].foldl (fun s j => s.emit (Ev.uart1TxSendByte (bytes.getD j 0))) s
    s.emit Ev.uartDisable
  else s

/-! ## Channel tuner -/

/-- The local table `uint8 channels[4]` of `swap_channel`. -/
def channels : List Nat := [0, 100, 199, 209]

/-- The handshake `do { RFST = 4; } while (MARCSTATE != 0x01);`, one reading per
iteration. -/
def swap_channel.loop : List Nat → St → Option St
  | [], _ => none
  | m :: rest, s =>
    let s := s.emit (Ev.RFST 4)
    if m % 256 ≠ 0x01 then swap_channel.loop rest s else some s

/-- `void swap_channel(uint8 ch)`. -/
def swap_channel (lib : Formatter) (cfg : Config) (ch : Nat) (hw : SwapIn) (s : St) :
    Option St :=
  let s :=
    if cfg.do_verbose then
      printf lib cfg "%lu Wait for idle\r\n" [((hw.tIdle % 2 ^ 32 : Nat) : Int)] s
    else s
  match swap_channel.loop hw.MARCSTATE s with
  | none => none
  | some s =>
    let s := s.emit (Ev.FSCTRL0 (s.fOffset.getD ch 0))
    let s := { s.emit (Ev.CHANNR (channels.getD ch 0)) with CHANNR := channels.getD ch 0 }
    let s := s.emit (Ev.RFST 2)
    if cfg.do_verbose then
      let s := printf lib cfg "%lu Channel:  %d \r\n"
        [((hw.tChannel % 2 ^ 32 : Nat) : Int), ((ch : Nat) : Int)] s
      some (printf lib cfg "[%lu] %hhi %hhu \r\n"
        [((hw.tState % 2 ^ 32 : Nat) : Int), ((hw.marcAfter % 256 : Nat) : Int)] s)
    else some s

/-! ## Capture loop -/

/-- The `while` loop of `WaitForPacket` together with the statements after it; `start`
is the `uint32` taken before the loop.  The condition reads `getMs()` only when
`milliseconds` is not zero. -/
def WaitForPacket.loop (lib : Formatter) (cfg : Config) (milliseconds channel start : Nat)
    (tTimeout : Nat) (nRet : Int) (resultPacket : Buf) :
    List PollIn → St → Option (Int × Buf × St)
  | [], _ => none
  | p :: rest, s =>
    if milliseconds = 0 ∨ (p.tCond % 2 ^ 32 + 2 ^ 32 - start) % 2 ^ 32 < milliseconds then
      let s := doServices cfg s
      let s := s.emit (Ev.LED_YELLOW ((p.tLed % 2 ^ 32 / 250) % 4 == 0))
      match p.rx with
      | some rx =>
        let packet := rx.packet
        let len := byteAt packet 0
        if rx.radioCrcPassed then
          let fOff := int8 (rx.fOff % 256)
          let fOffCh := int8 (s.fOffset.getD channel 0)
          let s := { s with
            fOffset := s.fOffset.set channel ((s.fOffset.getD channel 0 + rx.FREQEST % 256) % 256) }
          let s :=
            if cfg.do_verbose then
              let s := printf lib cfg
                "[%lu] received packet channel %d(%d) RSSI %d offset %02X bytes %hhu LQI %hhu\r\n"
                [((rx.tReport % 2 ^ 32 : Nat) : Int), ((channel : Nat) : Int),
                 ((s.CHANNR : Nat) : Int), rx.radioRssi,
                 ((s.fOffset.getD channel 0 : Nat) : Int), ((len : Nat) : Int),
                 ((rx.radioLqi : Nat) : Int)] s
              printf lib cfg "[%lu] %hhi %hhi \r\n"
                [((rx.tReport2 % 2 ^ 32 : Nat) : Int), fOff, fOffCh] s
            else s
          let nRet := 0
          let resultPacket := memcpy resultPacket packet 21
          let s :=
            if cfg.do_verbose then
              let s := printPacket lib cfg packet rx.print1 s
              printPacket lib cfg resultPacket rx.print2 s
            else s
          let s := s.emit Ev.radioQueueRxDoneWithPacket
          some (nRet, resultPacket, s)
        else
          let s :=
            if cfg.do_verbose then
              let s := printf lib cfg
                "[%lu] CRC failure channel %d(%d) RSSI %d %hhu bytes received LQI %hhu\r\n"
                [((rx.tReport % 2 ^ 32 : Nat) : Int), ((channel : Nat) : Int),
                 ((s.CHANNR : Nat) : Int), rx.radioRssi, ((len : Nat) : Int),
                 ((rx.radioLqi : Nat) : Int)] s
              printPacket lib cfg packet rx.print1 s
            else s
          let s := s.emit Ev.radioQueueRxDoneWithPacket
          some (nRet, resultPacket, s)
      | none => WaitForPacket.loop lib cfg milliseconds channel start tTimeout nRet resultPacket rest s
    else
      let s :=
        if cfg.do_verbose then
          printf lib cfg "[%lu] timed out waiting for packet on channel %d(%d)\r\n"
            [((tTimeout % 2 ^ 32 : Nat) : Int), ((channel : Nat) : Int), ((s.CHANNR : Nat) : Int)] s
        else s
      some (nRet, resultPacket, s)

/-- `int WaitForPacket(uint16 milliseconds, uint8 channel, uint8 XDATA * resultPacket)`:
the returned `int`, the result buffer after the call, and the state. -/
def WaitForPacket (lib : Formatter) (cfg : Config) (milliseconds channel : Nat)
    (resultPacket : Buf) (hw : WaitIn) (s : St) : Option (Int × Buf × St) :=
  let start := hw.start % 2 ^ 32
  let nRet : Int := 0
  match swap_channel lib cfg channel hw.swap s with
  | none => none
  | some s =>
    let s :=
      if cfg.do_verbose then
        printf lib cfg
          "[%lu] starting wait for packet on channel %d(%d) - will wait for %u ms\r\n"
          [((start : Nat) : Int), ((channel : Nat) : Int), ((s.CHANNR : Nat) : Int),
           ((milliseconds : Nat) : Int)] s
      else s
    WaitForPacket.loop lib cfg milliseconds channel start hw.tTimeout nRet resultPacket hw.polls s

/-! ## Capture scheduler -/

/-- `void printPacketIfNeeded()`: the buffer handed to the summary `printPacket` is the
local `goodPacket`.  The loop variable runs over `0..3`, carrying `delay` and the
buffer.  `delayMs` and `goToSleep` are recorded as calls. -/
def printPacketIfNeeded (lib : Formatter) (cfg : Config) (hw : CycleIn) (s : St) : Option St :=
  let delay := 0
  let goodPacket := memset hw.goodPacket0 0 21
  let s := s.emit (Ev.LED_RED false)
  let scanned := (List.range 4).foldlM (fun (acc : Nat × Buf × St) nChannel =>
    match WaitForPacket lib cfg acc.1 nChannel acc.2.1 (hw.wait nChannel) acc.2.2 with
    | none => none
    | some r => some (600, r.2.1, r.2.2)) (delay, goodPacket, s)
  match scanned with
  | none => none
  | some (_, goodPacket, s) =>
    let s := printPacket lib cfg goodPacket hw.summary s
    let s :=
      if cfg.do_verbose then
        let s := printf lib cfg "%lu Enter sleep\r\n" [((hw.tSleep % 2 ^ 32 : Nat) : Int)] s
        s.emit (Ev.delayMs 1000)
      else s
    let s := s.emit (Ev.goToSleep 270)
    if cfg.do_verbose then
      some (printf lib cfg "%lu Wakeup from sleep\r\n" [((hw.tWake % 2 ^ 32 : Nat) : Int)] s)
    else some s

/-! ## Notions used to state the capture properties -/

/-- The events produced when the characters `cs` are passed to `putchar` one by one. -/
def usbText (cfg : Config) (cs : List Nat) : List Ev :=
  if cfg.usbEnabled then cs.map Ev.usbComTxSendByte else []

/-- Bytes handed to `usbComTxSendByte`, in order. -/
def usbBytes (log : List Ev) : List Nat :=
  log.filterMap fun e => match e with
    | Ev.usbComTxSendByte c => some c
    | _ => none

/-- Bytes handed to `uart1TxSendByte`, in order. -/
def uartBytes (log : List Ev) : List Nat :=
  log.filterMap fun e => match e with
    | Ev.uart1TxSendByte b => some b
    | _ => none

/-- Values written to the frequency-offset register `FSCTRL0`, in order. -/
def fsctrl0Writes (log : List Ev) : List Nat :=
  log.filterMap fun e => match e with
    | Ev.FSCTRL0 v => some v
    | _ => none

/-- How a capture attempt ends. -/
inductive Outcome
  | valid (rx : RxIn)
  | crcFailed (rx : RxIn)
  | timeout

/-- What the poll loop meets first: with a non-zero `milliseconds`, a loop-condition
reading at least `milliseconds` after `start` (in `uint32` time) is a timeout; otherwise
the first packet the queue reports, classified by `radioCrcPassed()`.  `none`: neither
happens within the listed polls. -/
def captureOutcome (milliseconds start : Nat) : List PollIn → Option Outcome
  | [] => none
  | p :: rest =>
    if milliseconds ≠ 0 ∧ milliseconds ≤ (p.tCond % 2 ^ 32 + 2 ^ 32 - start) % 2 ^ 32 then
      some Outcome.timeout
    else
      match p.rx with
      | some rx => some (if rx.radioCrcPassed then Outcome.valid rx else Outcome.crcFailed rx)
      | none => captureOutcome milliseconds start rest

/-- The idle handshake of a `swap_channel` call ends: some reading of `MARCSTATE` is
`0x01`. -/
def SwapIn.reachesIdle (hw : SwapIn) : Bool := hw.MARCSTATE.any fun m => m % 256 == 1

/-- Number of `MARCSTATE` readings that are not idle before the first idle one. -/
def SwapIn.busyReads (hw : SwapIn) : Nat := (hw.MARCSTATE.takeWhile fun m => m % 256 != 1).length

/-- The outcome of the `WaitForPacket` call fed with `hw`. -/
def WaitIn.outcome (milliseconds : Nat) (hw : WaitIn) : Option Outcome :=
  captureOutcome milliseconds (hw.start % 2 ^ 32) hw.polls

/-- The inputs let the call run to its `return`: the handshake reaches idle and the poll
loop meets a packet or a timeout. -/
def WaitIn.completes (milliseconds : Nat) (hw : WaitIn) : Bool :=
  hw.swap.reachesIdle && (hw.outcome milliseconds).isSome

/-- A capture attempt of a test sequence: the arguments of the call and its inputs. -/
structure Attempt where
  milliseconds : Nat
  channel : Nat
  hw : WaitIn

/-- A sequence of `WaitForPacket` calls sharing one result buffer. -/
def captureAll (lib : Formatter) (cfg : Config) : List Attempt → Buf → St → Option (Buf × St)
  | [], resultPacket, s => some (resultPacket, s)
  | a :: rest, resultPacket, s =>
    match WaitForPacket lib cfg a.milliseconds a.channel resultPacket a.hw s with
    | none => none
    | some r => captureAll lib cfg rest r.2.1 r.2.2

/-- Frequency-error readings (the byte read from `FREQEST` by `fOffset[channel] +=
FREQEST`) of the CRC-valid receptions on channel `c`, in order. -/
def validReadings (c : Nat) : List Attempt → List Nat
  | [] => []
  | a :: rest =>
    match a.hw.outcome a.milliseconds with
    | some (Outcome.valid rx) =>
      if a.channel = c then (rx.FREQEST % 256) :: validReadings c rest else validReadings c rest
    | _ => validReadings c rest

/-- Characters `printPacket` passes to `putchar` in verbose mode, in the operators of
the source; `channr` is the value read from `CHANNR`. -/
def traceChars (lib : Formatter) (pkt : Buf) (hw : PrintIn) (channr : Nat) : List Nat :=
  lib "%lu \t" [((hw.getMs % 2 ^ 32 : Nat) : Int)]
    ++ [if byteAt pkt (byteAt pkt 0 + 2) &&& 0x80 ≠ 0 then ' '.toNat else '!'.toNat, ' '.toNat]
    ++ lib "R:%4d " [Int.tdiv (int8 (byteAt pkt (byteAt pkt 0 + 1))) 2 - 71]
    ++ lib "L:%4d " [((byteAt pkt (byteAt pkt 0 + 2) &&& 0x7F : Nat) : Int)]
    ++ lib "O:%4d " [((hw.FREQEST % 256 : Nat) : Int)]
    ++ lib "C:%4d " [((channr : Nat) : Int)]
    ++ lib "s:%4d " [((byteAt pkt 11 : Nat) : Int)]
    ++ [nibbleToAscii (byteAt pkt 12 >>> 4), nibbleToAscii (byteAt pkt 12), '-'.toNat,
        nibbleToAscii (byteAt pkt 13 >>> 4), nibbleToAscii (byteAt pkt 13), '-'.toNat,
        nibbleToAscii (byteAt pkt 14 >>> 4), nibbleToAscii (byteAt pkt 14), '-'.toNat,
        nibbleToAscii (byteAt pkt 15 >>> 4), nibbleToAscii (byteAt pkt 15)]
    ++ lib "\t%lu \t%lu"
        [((dDecode 12 pkt : Nat) : Int), ((dDecode 14 pkt * 2 % 2 ^ 32 : Nat) : Int)]
    ++ ['\r'.toNat, '\n'.toNat]

/-- Events of the binary telemetry path of `printPacket`. -/
def uartFrame (pkt : Buf) : List Ev :=
  [Ev.uartEnable, Ev.uart1TxSendByte 0x05]
    ++ (toBytes (dDecode 12 pkt)).map Ev.uart1TxSendByte
    ++ [Ev.uart1TxSendByte 0x06]
    ++ (toBytes (dDecode 14 pkt * 2 % 2 ^ 32)).map Ev.uart1TxSendByte
    ++ [Ev.uartDisable]

/-- All events of one `printPacket` call. -/
def printPacketEvents (lib : Formatter) (cfg : Config) (pkt : Buf) (hw : PrintIn)
    (channr : Nat) : List Ev :=
  (if cfg.do_verbose then usbText cfg (traceChars lib pkt hw channr) else [])
    ++ (if cfg.usbEnabled then [] else uartFrame pkt)

/-- Events that neither touch the radio registers nor the receive queue nor the sleep
timer: text, UART framing, servicing, LEDs. -/
def Ev.passive : Ev → Bool
  | Ev.usbComTxSendByte _ => true
  | Ev.uart1TxSendByte _ => true
  | Ev.uartEnable => true
  | Ev.uartDisable => true
  | Ev.boardService => true
  | Ev.usbComService => true
  | Ev.LED_YELLOW _ => true
  | Ev.LED_RED _ => true
  | _ => false

/-- The outcome is a packet taken from the queue, valid or not. -/
def Outcome.isPacket : Outcome → Bool
  | Outcome.valid _ => true
  | Outcome.crcFailed _ => true
  | Outcome.timeout => false

/-- All events of one `swap_channel` call that reaches idle; `offset` is the table entry
`fOffset[ch]` at the call. -/
def swapEvents (lib : Formatter) (cfg : Config) (ch : Nat) (hw : SwapIn) (offset : Nat) :
    List Ev :=
  (if cfg.do_verbose then
      usbText cfg (lib "%lu Wait for idle\r\n" [((hw.tIdle % 2 ^ 32 : Nat) : Int)])
    else [])
    ++ List.replicate (hw.busyReads + 1) (Ev.RFST 4)
    ++ [Ev.FSCTRL0 offset, Ev.CHANNR (channels.getD ch 0), Ev.RFST 2]
    ++ (if cfg.do_verbose then
          usbText cfg (lib "%lu Channel:  %d \r\n"
            [((hw.tChannel % 2 ^ 32 : Nat) : Int), ((ch : Nat) : Int)])
          ++ usbText cfg (lib "[%lu] %hhi %hhu \r\n"
            [((hw.tState % 2 ^ 32 : Nat) : Int), ((hw.marcAfter % 256 : Nat) : Int)])
        else [])

/-- Result of a capture attempt by outcome, for a call entered in state `s` (after the
channel switch) whose events other than the queue release are `E`: a valid reception
adds the frequency-error byte to the channel's table entry modulo 256 and copies 21
bytes; a packet of either kind is released last. -/
def captureResult (channel : Nat) (nRet : Int) (resultPacket : Buf) (s : St) (E : List Ev) :
    Outcome → Int × Buf × St
  | Outcome.timeout => (nRet, resultPacket, { s with log := s.log ++ E })
  | Outcome.crcFailed _ =>
    (nRet, resultPacket, { s with log := s.log ++ E ++ [Ev.radioQueueRxDoneWithPacket] })
  | Outcome.valid rx =>
    (0, memcpy resultPacket rx.packet 21,
      { fOffset := s.fOffset.set channel ((s.fOffset.getD channel 0 + rx.FREQEST % 256) % 256)
        CHANNR := s.CHANNR
        log := s.log ++ E ++ [Ev.radioQueueRxDoneWithPacket] })

/-- The `delay` argument `printPacketIfNeeded` uses for channel `ch`. -/
def cycleDelay (ch : Nat) : Nat := if ch = 0 then 0 else 600

/-- Outcome of the capture attempt on channel `ch` in a scheduler cycle. -/
def CycleIn.outcome (hw : CycleIn) (ch : Nat) : Option Outcome :=
  (hw.wait ch).outcome (cycleDelay ch)

/-- The four capture attempts of the cycle run to their `return`. -/
def CycleIn.completes (hw : CycleIn) : Bool :=
  [0, 1, 2, 3].all fun ch => (hw.wait ch).completes (cycleDelay ch)

/-- The result buffer after a capture attempt with the given outcome: a CRC-valid
capture stores 21 bytes, anything else leaves the buffer alone. -/
def storeCapture (o : Option Outcome) (buf : Buf) : Buf :=
  match o with
  | some (Outcome.valid rx) => memcpy buf rx.packet 21
  | _ => buf

/-- The buffer of a cycle after its four capture attempts: zero-filled at the start of
the cycle, then overwritten by each CRC-valid capture in channel order. -/
def CycleIn.summaryBuffer (hw : CycleIn) : Buf :=
  [0, 1, 2, 3].foldl (fun buf ch => storeCapture (hw.outcome ch) buf)
    (memset hw.goodPacket0 0 21)

/-- Values written to the channel-number register `CHANNR`, in order. -/
def channrWrites (log : List Ev) : List Nat :=
  log.filterMap fun e => match e with
    | Ev.CHANNR v => some v
    | _ => none

/-- Arguments of the `goToSleep` calls, in order. -/
def sleepCalls (log : List Ev) : List Nat :=
  log.filterMap fun e => match e with
    | Ev.goToSleep n => some n
    | _ => none

/-- Events of `printPacketIfNeeded` after the summary `printPacket(goodPacket)`. -/
def sleepEvents (lib : Formatter) (cfg : Config) (hw : CycleIn) : List Ev :=
  (if cfg.do_verbose then
      usbText cfg (lib "%lu Enter sleep\r\n" [((hw.tSleep % 2 ^ 32 : Nat) : Int)])
        ++ [Ev.delayMs 1000]
    else [])
    ++ [Ev.goToSleep 270]
    ++ (if cfg.do_verbose then
          usbText cfg (lib "%lu Wakeup from sleep\r\n" [((hw.tWake % 2 ^ 32 : Nat) : Int)])
        else [])

/-! ## Sample inputs -/

/-- A library rendering that prints nothing. -/
def silentLib : Formatter := fun _ _ => []

/-- A 21-byte packet: length byte 17, the bytes of `test()` at offsets 12..15, RSSI byte
`0xC4`, and a last byte with the CRC bit set and LQI 40. -/
def samplePacket : Buf := fun i =>
  [17, 0, 0, 0, 0, 0, 0, 0, 0, 0, 0, 7, 0x0E, 0x1D, 0x3F, 0x19, 0, 0, 0xC4, 0xA8, 0].getD i 0

/-- The queue reports `samplePacket` with the given CRC verdict and `FREQEST` byte. -/
def sampleRx (crc : Bool) (freqest : Nat) : RxIn :=
  { packet := samplePacket, radioCrcPassed := crc, fOff := freqest, FREQEST := freqest,
    tReport := 0, radioRssi := -60, radioLqi := 40, tReport2 := 0,
    print1 := ⟨0, freqest⟩, print2 := ⟨0, freqest⟩ }

/-- A handshake that reads one busy state, then idle. -/
def sampleSwap : SwapIn :=
  { tIdle := 0, MARCSTATE := [13, 1], tChannel := 0, tState := 0, marcAfter := 1 }

/-- A call entered at time 0 whose loop sees the given polls. -/
def sampleWait (polls : List PollIn) : WaitIn :=
  { start := 0, swap := sampleSwap, polls := polls, tTimeout := 0 }

/-- A call whose second poll finds a packet. -/
def waitPacket (crc : Bool) (freqest : Nat) : WaitIn :=
  sampleWait [⟨1, 1, none⟩, ⟨2, 2, some (sampleRx crc freqest)⟩]

/-- A call whose second loop-condition reading is 600 ms after the start. -/
def waitTimeout : WaitIn := sampleWait [⟨1, 1, none⟩, ⟨600, 600, none⟩]

/-- The program state at start-up. -/
def St.startup : St := { fOffset := fOffset_init, CHANNR := 0, log := [] }

/-- A cycle whose channel 0 gets the given call and whose channels 1..3 time out. -/
def sampleCycle (first : WaitIn) : CycleIn :=
  { goodPacket0 := fun _ => 0xFF
    wait := fun ch => if ch = 0 then first else waitTimeout
    summary := ⟨0, 0⟩, tSleep := 0, tWake := 0 }

/-! ## Telemetry decoding: proofs -/

theorem byteAt_lt (pkt : Buf) (i : Nat) : byteAt pkt i < 256 :=
  Nat.mod_lt _ (by decide)

theorem flip_lt (n : Nat) : flip n < 256 :=
  Nat.mod_lt _ (by decide)

set_option maxRecDepth 100000 in
theorem flip_eq_bitReverse8 : ∀ n < 256, flip n = bitReverse8 n := by decide

set_option maxRecDepth 100000 in
theorem flip_testBit : ∀ n < 256, ∀ i < 8, (flip n).testBit i = n.testBit (7 - i) := by
  decide

set_option maxRecDepth 100000 in
theorem flip_flip : ∀ n < 256, flip (flip n) = n := by decide

set_option maxRecDepth 100000 in
theorem and_1F_eq : ∀ n < 256, n &&& 0x1F = n % 32 := by decide

set_option maxRecDepth 100000 in
theorem and_E0_shift_eq : ∀ n < 256, (n &&& 0xE0) >>> 5 = n / 32 := by decide

theorem shift8_or_eq (a b : Nat) (hb : b < 256) : (a <<< 8) ||| b = a * 256 + b := by
  have h := Nat.mul_add_lt_is_or (i := 8) (b := b) (by simpa using hb) a
  rw [Nat.shiftLeft_eq, Nat.mul_comm a (2 ^ 8), ← h]

/-- The value held in `rawValue` before the final shift, and the shift amount, written
with exact arithmetic on the two reversed bytes. -/
theorem dDecode_exact (offset : Nat) (pkt : Buf) :
    dDecode offset pkt
      = (flip (byteAt pkt (offset + 1)) % 32 * 256 + flip (byteAt pkt offset))
          * 2 ^ (flip (byteAt pkt (offset + 1)) / 32) := by
  have h0 := flip_lt (byteAt pkt offset)
  have h1 := flip_lt (byteAt pkt (offset + 1))
  have he : flip (byteAt pkt (offset + 1)) / 32 ≤ 7 := by omega
  have hm : flip (byteAt pkt (offset + 1)) % 32 * 256 + flip (byteAt pkt offset) ≤ 8191 := by
    omega
  have hp : 2 ^ (flip (byteAt pkt (offset + 1)) / 32) ≤ 2 ^ 7 :=
    Nat.pow_le_pow_right (by decide) he
  have hb : (flip (byteAt pkt (offset + 1)) % 32 * 256 + flip (byteAt pkt offset))
      * 2 ^ (flip (byteAt pkt (offset + 1)) / 32) ≤ 8191 * 2 ^ 7 :=
    Nat.mul_le_mul hm hp
  unfold dDecode
  simp only [and_1F_eq _ h1, and_E0_shift_eq _ h1]
  rw [shift8_or_eq _ _ h0, Nat.shiftLeft_eq]
  have hlt : 8191 * 2 ^ 7 < 2 ^ 32 := by decide
  exact Nat.mod_eq_of_lt (Nat.lt_of_le_of_lt hb hlt)

theorem dDecode_le (offset : Nat) (pkt : Buf) : dDecode offset pkt ≤ 8191 * 128 := by
  have h0 := flip_lt (byteAt pkt offset)
  have h1 := flip_lt (byteAt pkt (offset + 1))
  have he : flip (byteAt pkt (offset + 1)) / 32 ≤ 7 := by omega
  have hm : flip (byteAt pkt (offset + 1)) % 32 * 256 + flip (byteAt pkt offset) ≤ 8191 := by
    omega
  have hp : 2 ^ (flip (byteAt pkt (offset + 1)) / 32) ≤ 2 ^ 7 :=
    Nat.pow_le_pow_right (by decide) he
  rw [dDecode_exact]
  exact Nat.mul_le_mul hm hp

theorem toBytes_eq_bigEndian4 (n : Nat) : toBytes n = bigEndian4 n := by
  have h : ∀ x : Nat, x &&& 0xFF = x % 256 := fun x =>
    Nat.and_pow_two_sub_one_eq_mod x 8
  simp only [toBytes, bigEndian4, h, Nat.shiftRight_eq_div_pow]

/-- C1: for every buffer and offset, `dDecode` returns `m * 2 ^ e`, where `m` is the
13-bit number whose low 8 bits are the bit reversal of `pkt[o]` and whose high 5 bits
are the low 5 bits of the bit reversal of `pkt[o+1]`, and `e ≤ 7` is the top 3 bits of
that reversal.  The result is a function of those two bytes alone (`dDecode` takes and
returns no state), and on the buffer of `test()` it gives 200192 and 102336. -/
theorem dDecode_spec (pkt : Buf) (o : Nat) :
    dDecode o pkt
        = (bitReverse8 (byteAt pkt (o + 1)) % 32 * 256 + bitReverse8 (byteAt pkt o))
            * 2 ^ (bitReverse8 (byteAt pkt (o + 1)) / 32)
      ∧ (bitReverse8 (byteAt pkt (o + 1)) % 32 * 256 + bitReverse8 (byteAt pkt o)) % 256
          = bitReverse8 (byteAt pkt o)
      ∧ (bitReverse8 (byteAt pkt (o + 1)) % 32 * 256 + bitReverse8 (byteAt pkt o)) / 256
          = bitReverse8 (byteAt pkt (o + 1)) % 32
      ∧ bitReverse8 (byteAt pkt (o + 1)) % 32 * 256 + bitReverse8 (byteAt pkt o) < 2 ^ 13
      ∧ bitReverse8 (byteAt pkt (o + 1)) / 32 ≤ 7
      ∧ (∀ pkt2 : Buf, byteAt pkt2 o = byteAt pkt o →
          byteAt pkt2 (o + 1) = byteAt pkt (o + 1) → dDecode o pkt2 = dDecode o pkt)
      ∧ dDecode 0 test_pkt = 200192
      ∧ dDecode 2 test_pkt = 102336 := by
  have e0 := flip_eq_bitReverse8 _ (byteAt_lt pkt o)
  have e1 := flip_eq_bitReverse8 _ (byteAt_lt pkt (o + 1))
  have h0 := flip_lt (byteAt pkt o)
  have h1 := flip_lt (byteAt pkt (o + 1))
  rw [e0] at h0
  rw [e1] at h1
  refine ⟨?_, by omega, by omega, by omega, by omega, ?_, by decide, by decide⟩
  · rw [dDecode_exact, e0, e1]
  · intro pkt2 a b
    rw [dDecode_exact, dDecode_exact, a, b]

theorem dDecode_spec_witness :
    byteAt test_pkt 0 = byteAt test_pkt 0 ∧ byteAt test_pkt 1 = byteAt test_pkt 1
      ∧ dDecode 0 test_pkt = dDecode 0 test_pkt :=
  ⟨rfl, rfl, (dDecode_spec test_pkt 0).2.2.2.2.2.1 test_pkt rfl rfl⟩

/-- C10: `flip` is the exact 8-bit bit reversal (bit `i` of `flip n` is bit `7 - i` of
`n`, so `flip (flip n) = n`), and `dDecode` never exceeds `8191 * 128 < 2 ^ 20`.  Hence
the `uint32` left shift inside `dDecode` and the doubling `dDecode(14, pkt) * 2` never
wrap, and the first byte of each 4-byte big-endian telemetry frame is 0. -/
theorem flip_reversal_and_dDecode_range :
    (∀ n, n < 256 → ∀ i, i < 8 → (flip n).testBit i = n.testBit (7 - i))
      ∧ (∀ n, n < 256 → flip (flip n) = n)
      ∧ ∀ (pkt : Buf) (offset : Nat),
          dDecode offset pkt ≤ 8191 * 128
          ∧ 8191 * 128 < 2 ^ 20
          ∧ (((flip (byteAt pkt (offset + 1)) &&& 0x1F) <<< 8) ||| flip (byteAt pkt offset))
                <<< ((flip (byteAt pkt (offset + 1)) &&& 0xE0) >>> 5) < 2 ^ 32
          ∧ dDecode offset pkt
              = (((flip (byteAt pkt (offset + 1)) &&& 0x1F) <<< 8) ||| flip (byteAt pkt offset))
                  <<< ((flip (byteAt pkt (offset + 1)) &&& 0xE0) >>> 5)
          ∧ dDecode offset pkt * 2 < 2 ^ 32
          ∧ dDecode offset pkt * 2 % 2 ^ 32 = dDecode offset pkt * 2
          ∧ (toBytes (dDecode offset pkt)).head? = some 0
          ∧ (toBytes (dDecode offset pkt * 2 % 2 ^ 32)).head? = some 0 := by
  refine ⟨flip_testBit, flip_flip, ?_⟩
  intro pkt offset
  have hle := dDecode_le offset pkt
  have h0 := flip_lt (byteAt pkt offset)
  have h1 := flip_lt (byteAt pkt (offset + 1))
  have hraw : (((flip (byteAt pkt (offset + 1)) &&& 0x1F) <<< 8) ||| flip (byteAt pkt offset))
      <<< ((flip (byteAt pkt (offset + 1)) &&& 0xE0) >>> 5) = dDecode offset pkt := by
    rw [dDecode_exact]
    simp only [and_1F_eq _ h1, and_E0_shift_eq _ h1]
    rw [shift8_or_eq _ _ h0, Nat.shiftLeft_eq]
  have hd : dDecode offset pkt * 2 % 2 ^ 32 = dDecode offset pkt * 2 :=
    Nat.mod_eq_of_lt (by omega)
  refine ⟨hle, by decide, by rw [hraw]; omega, hraw.symm, by omega, hd, ?_, ?_⟩
  · rw [toBytes_eq_bigEndian4]
    simp only [bigEndian4, List.head?_cons, Option.some.injEq]
    omega
  · rw [hd, toBytes_eq_bigEndian4]
    simp only [bigEndian4, List.head?_cons, Option.some.injEq]
    omega

theorem flip_reversal_and_dDecode_range_witness :
    (0x0E < 256 ∧ 3 < 8) ∧ (flip 0x0E).testBit 3 = (0x0E).testBit (7 - 3)
      ∧ flip (flip 0x0E) = 0x0E :=
  ⟨⟨by decide, by decide⟩,
    flip_reversal_and_dDecode_range.1 0x0E (by decide) 3 (by decide),
    flip_reversal_and_dDecode_range.2.1 0x0E (by decide)⟩

/-! ## State-passing primitives: proofs -/

theorem emit_eq (s : St) (e : Ev) : s.emit e = { s with log := s.log ++ [e] } := rfl

theorem putchar_eq (cfg : Config) (c : Nat) (s : St) :
    putchar cfg c s = { s with log := s.log ++ usbText cfg [c] } := by
  unfold putchar usbText
  cases cfg.usbEnabled <;> simp [St.emit]

theorem printf_eq (lib : Formatter) (cfg : Config) (f : String) (a : List Int) (s : St) :
    printf lib cfg f a s = { s with log := s.log ++ usbText cfg (lib f a) } := by
  unfold printf
  generalize lib f a = cs
  induction cs generalizing s with
  | nil => simp [usbText]
  | cons c cs ih =>
    rw [List.foldl_cons, ih, putchar_eq]
    unfold usbText
    cases cfg.usbEnabled <;> simp

theorem doServices_eq (cfg : Config) (s : St) :
    doServices cfg s = { s with log := s.log ++
      if cfg.usbEnabled then [Ev.boardService, Ev.usbComService] else [] } := by
  unfold doServices
  cases cfg.usbEnabled <;> simp [St.emit]

theorem printPacket_eq (lib : Formatter) (cfg : Config) (pkt : Buf) (hw : PrintIn) (s : St) :
    printPacket lib cfg pkt hw s
      = { s with log := s.log ++ printPacketEvents lib cfg pkt hw s.CHANNR } := by
  unfold printPacket printPacketEvents traceChars uartFrame
  simp only [printf_eq, putchar_eq, emit_eq, List.foldl_cons, List.foldl_nil, toBytes]
  cases hv : cfg.do_verbose <;> cases hu : cfg.usbEnabled <;> simp [usbText, hu]

theorem passive_usbText (cfg : Config) (cs : List Nat) :
    ∀ e ∈ usbText cfg cs, e.passive = true := by
  intro e he
  unfold usbText at he
  split at he
  · obtain ⟨c, _, rfl⟩ := List.mem_map.1 he
    rfl
  · simp at he

theorem passive_uartFrame (pkt : Buf) : ∀ e ∈ uartFrame pkt, e.passive = true := by
  intro e he
  simp only [uartFrame, toBytes, List.map_cons, List.map_nil, List.cons_append,
    List.nil_append, List.mem_cons, List.not_mem_nil, or_false] at he
  rcases he with h | h | h | h | h | h | h | h | h | h | h | h <;> subst h <;> rfl

theorem passive_printPacketEvents (lib : Formatter) (cfg : Config) (pkt : Buf) (hw : PrintIn)
    (channr : Nat) : ∀ e ∈ printPacketEvents lib cfg pkt hw channr, e.passive = true := by
  intro e he
  unfold printPacketEvents at he
  rcases List.mem_append.1 he with h | h
  · split at h
    · exact passive_usbText _ _ e h
    · simp at h
  · split at h
    · simp at h
    · exact passive_uartFrame _ e h

/-! ## Channel tuner: proofs -/

theorem swap_loop_eq (marc : List Nat) (s : St) :
    swap_channel.loop marc s =
      if marc.any (fun m => m % 256 == 1) then
        some { s with log := s.log ++
          List.replicate ((marc.takeWhile fun m => m % 256 != 1).length + 1) (Ev.RFST 4) }
      else none := by
  induction marc generalizing s with
  | nil => simp [swap_channel.loop]
  | cons m rest ih =>
    unfold swap_channel.loop
    by_cases hm : m % 256 = 1
    · simp [hm, emit_eq]
    · simp only [ih, hm, emit_eq]
      by_cases hr : rest.any (fun m => m % 256 == 1)
      · simp [hm, hr, List.replicate_succ]
      · simp [hm, hr]

theorem swap_channel_eq (lib : Formatter) (cfg : Config) (ch : Nat) (hw : SwapIn) (s : St) :
    swap_channel lib cfg ch hw s =
      if hw.reachesIdle then
        some { fOffset := s.fOffset
               CHANNR := channels.getD ch 0
               log := s.log ++ swapEvents lib cfg ch hw (s.fOffset.getD ch 0) }
      else none := by
  unfold swap_channel swapEvents SwapIn.reachesIdle SwapIn.busyReads
  simp only [swap_loop_eq, printf_eq, emit_eq]
  by_cases hr : hw.MARCSTATE.any (fun m => m % 256 == 1)
  · cases hv : cfg.do_verbose <;> simp [hr]
  · cases hv : cfg.do_verbose <;> simp [hr]

/-! ## Capture loop: proofs -/

theorem loop_none (lib : Formatter) (cfg : Config) (ms ch start tT : Nat) (nRet : Int)
    (res : Buf) (polls : List PollIn) (s : St)
    (h : captureOutcome ms start polls = none) :
    WaitForPacket.loop lib cfg ms ch start tT nRet res polls s = none := by
  induction polls generalizing s with
  | nil => rfl
  | cons p rest ih =>
    unfold captureOutcome at h
    unfold WaitForPacket.loop
    by_cases hc : ms = 0 ∨ (p.tCond % 2 ^ 32 + 2 ^ 32 - start) % 2 ^ 32 < ms
    · have hc2 : ¬ (ms ≠ 0 ∧ ms ≤ (p.tCond % 2 ^ 32 + 2 ^ 32 - start) % 2 ^ 32) := by omega
      rw [if_neg hc2] at h
      rw [if_pos hc]
      cases hrx : p.rx with
      | none =>
        rw [hrx] at h
        exact ih _ h
      | some rx =>
        rw [hrx] at h
        simp at h
    · have hc2 : ms ≠ 0 ∧ ms ≤ (p.tCond % 2 ^ 32 + 2 ^ 32 - start) % 2 ^ 32 := by omega
      rw [if_pos hc2] at h
      simp at h

theorem loop_some (lib : Formatter) (cfg : Config) (ms ch start tT : Nat) (nRet : Int)
    (res : Buf) (polls : List PollIn) (s : St) (o : Outcome)
    (h : captureOutcome ms start polls = some o) :
    ∃ E, (∀ e ∈ E, e.passive = true) ∧
      WaitForPacket.loop lib cfg ms ch start tT nRet res polls s
        = some (captureResult ch nRet res s E o) := by
  induction polls generalizing s with
  | nil => simp [captureOutcome] at h
  | cons p rest ih =>
    unfold captureOutcome at h
    unfold WaitForPacket.loop
    by_cases hc : ms = 0 ∨ (p.tCond % 2 ^ 32 + 2 ^ 32 - start) % 2 ^ 32 < ms
    · have hc2 : ¬ (ms ≠ 0 ∧ ms ≤ (p.tCond % 2 ^ 32 + 2 ^ 32 - start) % 2 ^ 32) := by omega
      rw [if_neg hc2] at h
      rw [if_pos hc]
      cases hrx : p.rx with
      | none =>
        rw [hrx] at h
        obtain ⟨E, hE, hl⟩ := ih (doServices cfg s |>.emit
          (Ev.LED_YELLOW ((p.tLed % 2 ^ 32 / 250) % 4 == 0))) h
        refine ⟨(if cfg.usbEnabled then [Ev.boardService, Ev.usbComService] else [])
          ++ [Ev.LED_YELLOW ((p.tLed % 2 ^ 32 / 250) % 4 == 0)] ++ E, ?_, ?_⟩
        · intro e he
          simp only [List.mem_append, List.mem_singleton] at he
          rcases he with (he | he) | he
          · split at he
            · simp only [List.mem_cons, List.not_mem_nil, or_false] at he
              rcases he with he | he <;> subst he <;> rfl
            · simp at he
          · subst he; rfl
          · exact hE e he
        · simp only [hl]
          cases o <;> simp [captureResult, doServices_eq, emit_eq, List.append_assoc]
      | some rx =>
        rw [hrx] at h
        simp only [Option.some.injEq] at h
        cases hcrc : rx.radioCrcPassed with
        | true =>
          rw [hcrc] at h
          simp only [if_true] at h
          subst h
          refine ⟨(if cfg.usbEnabled then [Ev.boardService, Ev.usbComService] else [])
            ++ [Ev.LED_YELLOW ((p.tLed % 2 ^ 32 / 250) % 4 == 0)]
            ++ (if cfg.do_verbose then
                  usbText cfg (lib
                    "[%lu] received packet channel %d(%d) RSSI %d offset %02X bytes %hhu LQI %hhu\r\n"
                    [((rx.tReport % 2 ^ 32 : Nat) : Int), ((ch : Nat) : Int),
                     ((s.CHANNR : Nat) : Int), rx.radioRssi,
                     (((s.fOffset.set ch ((s.fOffset.getD ch 0 + rx.FREQEST % 256) % 256)).getD
                        ch 0 : Nat) : Int),
                     ((byteAt rx.packet 0 : Nat) : Int), ((rx.radioLqi : Nat) : Int)])
                  ++ usbText cfg (lib "[%lu] %hhi %hhi \r\n"
                    [((rx.tReport2 % 2 ^ 32 : Nat) : Int), int8 (rx.fOff % 256),
                     int8 (s.fOffset.getD ch 0)])
                  ++ printPacketEvents lib cfg rx.packet rx.print1 s.CHANNR
                  ++ printPacketEvents lib cfg (memcpy res rx.packet 21) rx.print2 s.CHANNR
                else []), ?_, ?_⟩
          · intro e he
            simp only [List.mem_append, List.mem_singleton] at he
            rcases he with (he | he) | he
            · split at he
              · simp only [List.mem_cons, List.not_mem_nil, or_false] at he
                rcases he with he | he <;> subst he <;> rfl
              · simp at he
            · subst he; rfl
            · split at he
              · simp only [List.mem_append] at he
                rcases he with ((he | he) | he) | he
                · exact passive_usbText _ _ e he
                · exact passive_usbText _ _ e he
                · exact passive_printPacketEvents _ _ _ _ _ e he
                · exact passive_printPacketEvents _ _ _ _ _ e he
              · simp at he
          · cases hv : cfg.do_verbose <;>
              simp [captureResult, printf_eq, printPacket_eq, doServices_eq, emit_eq,
                List.append_assoc, hcrc]
        | false =>
          rw [hcrc] at h
          simp only [Bool.false_eq_true, if_false] at h
          subst h
          refine ⟨(if cfg.usbEnabled then [Ev.boardService, Ev.usbComService] else [])
            ++ [Ev.LED_YELLOW ((p.tLed % 2 ^ 32 / 250) % 4 == 0)]
            ++ (if cfg.do_verbose then
                  usbText cfg (lib
                    "[%lu] CRC failure channel %d(%d) RSSI %d %hhu bytes received LQI %hhu\r\n"
                    [((rx.tReport % 2 ^ 32 : Nat) : Int), ((ch : Nat) : Int),
                     ((s.CHANNR : Nat) : Int), rx.radioRssi,
                     ((byteAt rx.packet 0 : Nat) : Int), ((rx.radioLqi : Nat) : Int)])
                  ++ printPacketEvents lib cfg rx.packet rx.print1 s.CHANNR
                else []), ?_, ?_⟩
          · intro e he
            simp only [List.mem_append, List.mem_singleton] at he
            rcases he with (he | he) | he
            · split at he
              · simp only [List.mem_cons, List.not_mem_nil, or_false] at he
                rcases he with he | he <;> subst he <;> rfl
              · simp at he
            · subst he; rfl
            · split at he
              · simp only [List.mem_append] at he
                rcases he with he | he
                · exact passive_usbText _ _ e he
                · exact passive_printPacketEvents _ _ _ _ _ e he
              · simp at he
          · cases hv : cfg.do_verbose <;>
              simp [captureResult, printf_eq, printPacket_eq, doServices_eq, emit_eq,
                List.append_assoc, hcrc]
    · have hc2 : ms ≠ 0 ∧ ms ≤ (p.tCond % 2 ^ 32 + 2 ^ 32 - start) % 2 ^ 32 := by omega
      rw [if_pos hc2] at h
      simp only [Option.some.injEq] at h
      subst h
      refine ⟨if cfg.do_verbose then usbText cfg (lib
          "[%lu] timed out waiting for packet on channel %d(%d)\r\n"
          [((tT % 2 ^ 32 : Nat) : Int), ((ch : Nat) : Int), ((s.CHANNR : Nat) : Int)]) else [], ?_, ?_⟩
      · intro e he
        split at he
        · exact passive_usbText _ _ e he
        · simp at he
      · rw [if_neg hc]
        cases hv : cfg.do_verbose <;> simp [captureResult, printf_eq]

theorem WaitForPacket_none (lib : Formatter) (cfg : Config) (ms ch : Nat) (res : Buf)
    (hw : WaitIn) (s : St) (h : hw.completes ms = false) :
    WaitForPacket lib cfg ms ch res hw s = none := by
  unfold WaitForPacket
  rw [swap_channel_eq]
  unfold WaitIn.completes at h
  cases hr : hw.swap.reachesIdle with
  | false => simp
  | true =>
    rw [hr] at h
    simp only [Bool.true_and] at h
    have h2 : captureOutcome ms (hw.start % 2 ^ 32) hw.polls = none := by
      unfold WaitIn.outcome at h
      cases hc : captureOutcome ms (hw.start % 2 ^ 32) hw.polls with
      | none => rfl
      | some o => rw [hc] at h; simp at h
    simp only [if_true]
    exact loop_none _ _ _ _ _ _ _ _ _ _ h2

/-- The state in which the poll loop of a completing call starts, up to verbose text. -/
theorem WaitForPacket_some (lib : Formatter) (cfg : Config) (ms ch : Nat) (res : Buf)
    (hw : WaitIn) (s : St) (o : Outcome) (hr : hw.swap.reachesIdle = true)
    (ho : hw.outcome ms = some o) :
    ∃ E, (∀ e ∈ E, e.passive = true) ∧
      WaitForPacket lib cfg ms ch res hw s
        = some (captureResult ch 0 res
            { fOffset := s.fOffset
              CHANNR := channels.getD ch 0
              log := s.log ++ swapEvents lib cfg ch hw.swap (s.fOffset.getD ch 0) } E o) := by
  unfold WaitForPacket
  rw [swap_channel_eq, hr]
  simp only [if_true]
  cases hv : cfg.do_verbose with
  | false =>
    simp only [Bool.false_eq_true, if_false]
    exact loop_some _ _ _ _ _ _ _ _ _ _ _ ho
  | true =>
    simp only [if_true, printf_eq]
    obtain ⟨E, hE, hl⟩ := loop_some lib cfg ms ch (hw.start % 2 ^ 32) hw.tTimeout 0 res hw.polls
      { fOffset := s.fOffset
        CHANNR := channels.getD ch 0
        log := (s.log ++ swapEvents lib cfg ch hw.swap (s.fOffset.getD ch 0)) ++
          usbText cfg (lib
            "[%lu] starting wait for packet on channel %d(%d) - will wait for %u ms\r\n"
            [((hw.start % 2 ^ 32 : Nat) : Int), ((ch : Nat) : Int),
             ((channels.getD ch 0 : Nat) : Int), ((ms : Nat) : Int)]) } o ho
    refine ⟨usbText cfg (lib
            "[%lu] starting wait for packet on channel %d(%d) - will wait for %u ms\r\n"
            [((hw.start % 2 ^ 32 : Nat) : Int), ((ch : Nat) : Int),
             ((channels.getD ch 0 : Nat) : Int), ((ms : Nat) : Int)]) ++ E, ?_, ?_⟩
    · intro e he
      rcases List.mem_append.1 he with he | he
      · exact passive_usbText _ _ e he
      · exact hE e he
    · rw [hl]
      cases o <;> simp [captureResult, List.append_assoc]

/-! ## Projections of the log -/

theorem usbBytes_append (a b : List Ev) : usbBytes (a ++ b) = usbBytes a ++ usbBytes b := by
  simp [usbBytes, List.filterMap_append]

theorem uartBytes_append (a b : List Ev) : uartBytes (a ++ b) = uartBytes a ++ uartBytes b := by
  simp [uartBytes, List.filterMap_append]

theorem fsctrl0Writes_append (a b : List Ev) :
    fsctrl0Writes (a ++ b) = fsctrl0Writes a ++ fsctrl0Writes b := by
  simp [fsctrl0Writes, List.filterMap_append]

theorem usbBytes_usbText (cfg : Config) (cs : List Nat) :
    usbBytes (usbText cfg cs) = if cfg.usbEnabled then cs else [] := by
  unfold usbText
  split
  · induction cs with
    | nil => rfl
    | cons c cs ih => simpa [usbBytes] using ih
  · rfl

theorem uartBytes_usbText (cfg : Config) (cs : List Nat) : uartBytes (usbText cfg cs) = [] := by
  unfold usbText
  split
  · induction cs with
    | nil => rfl
    | cons c cs ih => simp [uartBytes]
  · rfl

theorem fsctrl0Writes_passive (E : List Ev) (h : ∀ e ∈ E, e.passive = true) :
    fsctrl0Writes E = [] := by
  induction E with
  | nil => rfl
  | cons e E ih =>
    have he := h e (List.mem_cons_self _ _)
    have ih2 := ih fun x hx => h x (List.mem_cons_of_mem _ hx)
    cases e <;> simp_all [fsctrl0Writes, Ev.passive]

theorem filter_passive (E : List Ev) (h : ∀ e ∈ E, e.passive = true) :
    E.filter (fun e => !e.passive) = [] := by
  induction E with
  | nil => rfl
  | cons e E ih =>
    have he := h e (List.mem_cons_self _ _)
    have ih2 := ih fun x hx => h x (List.mem_cons_of_mem _ hx)
    simp [List.filter_cons, he, ih2]

theorem count_release_passive (E : List Ev) (h : ∀ e ∈ E, e.passive = true) :
    E.count Ev.radioQueueRxDoneWithPacket = 0 := by
  rw [List.count_eq_zero]
  intro hm
  have := h _ hm
  simp [Ev.passive] at this

theorem filter_replicate_RFST (n : Nat) :
    (List.replicate n (Ev.RFST 4)).filter (fun e => !e.passive) = List.replicate n (Ev.RFST 4) := by
  induction n with
  | zero => rfl
  | succ n ih => simp [List.replicate_succ, List.filter_cons, Ev.passive, ih]

theorem swapEvents_radio (lib : Formatter) (cfg : Config) (ch : Nat) (hw : SwapIn)
    (offset : Nat) :
    (swapEvents lib cfg ch hw offset).filter (fun e => !e.passive)
      = List.replicate (hw.busyReads + 1) (Ev.RFST 4)
          ++ [Ev.FSCTRL0 offset, Ev.CHANNR (channels.getD ch 0), Ev.RFST 2] := by
  unfold swapEvents
  have t := fun cs => filter_passive _ (passive_usbText cfg cs)
  have f3 : ∀ a b c, ([Ev.FSCTRL0 a, Ev.CHANNR b, Ev.RFST c]).filter (fun e => !e.passive)
      = [Ev.FSCTRL0 a, Ev.CHANNR b, Ev.RFST c] := fun _ _ _ => rfl
  cases hv : cfg.do_verbose <;>
    simp only [List.filter_append, t, filter_replicate_RFST, f3, List.append_nil,
      List.nil_append, if_true, if_false, Bool.false_eq_true, List.filter_nil]

theorem busy_read_idle (marc : List Nat) (h : marc.any (fun m => m % 256 == 1) = true) :
    marc.getD (marc.takeWhile fun m => m % 256 != 1).length 0 % 256 = 1 := by
  induction marc with
  | nil => simp at h
  | cons m rest ih =>
    by_cases hm : m % 256 = 1
    · simp [List.takeWhile_cons, hm]
    · have hr : rest.any (fun m => m % 256 == 1) = true := by
        simpa [List.any_cons, hm] using h
      simpa [List.takeWhile_cons, hm] using ih hr

theorem busy_reads_not_idle (marc : List Nat) (k : Nat)
    (hk : k < (marc.takeWhile fun m => m % 256 != 1).length) : marc.getD k 0 % 256 ≠ 1 := by
  induction marc generalizing k with
  | nil => simp at hk
  | cons m rest ih =>
    by_cases hm : m % 256 = 1
    · simp [List.takeWhile_cons, hm] at hk
    · cases k with
      | zero => simpa using hm
      | succ k =>
        have hk2 : k < (rest.takeWhile fun m => m % 256 != 1).length := by
          simpa [List.takeWhile_cons, hm] using hk
        simpa using ih k hk2

/-- C8: for every channel index `ch < 4`, `swap_channel` strobes idle (`RFST = 4`) once
per `MARCSTATE` read up to and including the first read that is `0x01` (so at least
once), goes on only if such a read occurs, then writes `FSCTRL0` with the table entry
`fOffset[ch]` and `CHANNR` with `channels[ch]`, then strobes receive (`RFST = 2`); with
the initial table the (offset, channel number) pairs are (0xCE, 0), (0xD5, 100),
(0xE6, 199), (0xE5, 209). -/
theorem swap_channel_programs (lib : Formatter) (cfg : Config) (ch : Nat) (hw : SwapIn)
    (s : St) (hch : ch < 4) :
    swap_channel lib cfg ch hw s
        = (if hw.reachesIdle then
            some { fOffset := s.fOffset
                   CHANNR := channels.getD ch 0
                   log := s.log ++ swapEvents lib cfg ch hw (s.fOffset.getD ch 0) }
          else none)
      ∧ (swapEvents lib cfg ch hw (s.fOffset.getD ch 0)).filter (fun e => !e.passive)
          = List.replicate (hw.busyReads + 1) (Ev.RFST 4)
              ++ [Ev.FSCTRL0 (s.fOffset.getD ch 0), Ev.CHANNR (channels.getD ch 0), Ev.RFST 2]
      ∧ (hw.reachesIdle = true → hw.MARCSTATE.getD hw.busyReads 0 % 256 = 0x01)
      ∧ (∀ k, k < hw.busyReads → hw.MARCSTATE.getD k 0 % 256 ≠ 0x01)
      ∧ (s.fOffset = fOffset_init →
          (s.fOffset.getD ch 0, channels.getD ch 0)
            = [(0xCE, 0), (0xD5, 100), (0xE6, 199), (0xE5, 209)].getD ch (0, 0)) := by
  refine ⟨swap_channel_eq _ _ _ _ _, swapEvents_radio _ _ _ _ _, ?_, ?_, ?_⟩
  · intro h
    exact busy_read_idle _ h
  · intro k hk
    exact busy_reads_not_idle _ k hk
  · intro h
    rw [h]
    interval_cases ch <;> rfl

theorem swap_channel_programs_witness :
    2 < 4 ∧ (fOffset_init.getD 2 0, channels.getD 2 0) = (0xE6, 199) :=
  ⟨by decide,
    (swap_channel_programs (fun _ _ => []) ⟨false, false⟩ 2 ⟨0, [13, 1], 0, 0, 1⟩
      ⟨fOffset_init, 0, []⟩ (by decide)).2.2.2.2 rfl⟩

/-! ## Formatter: proofs -/

set_option maxRecDepth 100000 in
theorem marker_eq : ∀ b < 256,
    (if b &&& 0x80 ≠ 0 then ' '.toNat else '!'.toNat)
      = (if b / 128 = 0 then '!'.toNat else ' '.toNat) := by
  decide

set_option maxRecDepth 100000 in
theorem nibble_hi : ∀ b < 256, nibbleToAscii (b >>> 4) = hexDigit (b / 16) := by decide

set_option maxRecDepth 100000 in
theorem nibble_lo : ∀ b < 256, nibbleToAscii b = hexDigit (b % 16) := by decide

theorem and_7F_eq (b : Nat) : b &&& 0x7F = b % 128 :=
  Nat.and_pow_two_sub_one_eq_mod b 7

theorem int8_byte (b : Nat) (hb : b < 256) :
    int8 b = if b < 128 then (b : Int) else (b : Int) - 256 := by
  unfold int8
  rw [Nat.mod_eq_of_lt hb]

theorem double_no_wrap (offset : Nat) (pkt : Buf) :
    dDecode offset pkt * 2 % 2 ^ 32 = dDecode offset pkt * 2 := by
  have := dDecode_le offset pkt
  exact Nat.mod_eq_of_lt (by omega)

/-- C7: with `do_verbose = 0`, `printPacket` hands no byte to the text transport
(`usbComTxSendByte`); with `usbEnabled = 0`, whatever `do_verbose` is, it sends on the
UART exactly the ten bytes `0x05`, the four big-endian bytes of `dDecode(12, pkt)`,
`0x06`, the four big-endian bytes of `dDecode(14, pkt) * 2`. -/
theorem printPacket_transports (lib : Formatter) (cfg : Config) (pkt : Buf) (hw : PrintIn)
    (s : St) :
    (cfg.do_verbose = false →
        usbBytes (printPacket lib cfg pkt hw s).log = usbBytes s.log)
      ∧ (cfg.usbEnabled = false →
          uartBytes (printPacket lib cfg pkt hw s).log
            = uartBytes s.log
                ++ ([0x05] ++ bigEndian4 (dDecode 12 pkt)
                    ++ [0x06] ++ bigEndian4 (dDecode 14 pkt * 2))) := by
  rw [printPacket_eq]
  constructor
  · intro hv
    simp only [usbBytes_append, printPacketEvents, hv, Bool.false_eq_true, if_false]
    cases hu : cfg.usbEnabled <;> simp [usbBytes, uartFrame, toBytes]
  · intro hu
    simp only [uartBytes_append, printPacketEvents, hu, Bool.false_eq_true, if_false]
    have htext : uartBytes (if cfg.do_verbose = true then
        usbText cfg (traceChars lib pkt hw s.CHANNR) else []) = [] := by
      split
      · exact uartBytes_usbText _ _
      · rfl
    rw [htext, uartFrame, toBytes_eq_bigEndian4, toBytes_eq_bigEndian4, double_no_wrap]
    simp [uartBytes, bigEndian4]

theorem printPacket_transports_witness :
    usbBytes (printPacket (fun _ _ => [65]) ⟨false, false⟩ test_pkt ⟨0, 0⟩ ⟨[], 0, []⟩).log
        = usbBytes []
      ∧ uartBytes (printPacket (fun _ _ => [65]) ⟨false, false⟩ test_pkt ⟨0, 0⟩ ⟨[], 0, []⟩).log
        = uartBytes [] ++ ([0x05] ++ bigEndian4 (dDecode 12 test_pkt)
            ++ [0x06] ++ bigEndian4 (dDecode 14 test_pkt * 2)) :=
  ⟨(printPacket_transports (fun _ _ => [65]) ⟨false, false⟩ test_pkt ⟨0, 0⟩ ⟨[], 0, []⟩).1 rfl,
    (printPacket_transports (fun _ _ => [65]) ⟨false, false⟩ test_pkt ⟨0, 0⟩ ⟨[], 0, []⟩).2 rfl⟩

/-- C9: for a packet whose length byte `len = pkt[0]` is at most 18 (so `len + 2` lies
inside the 21-byte buffer), the line `printPacket` passes to `putchar` in verbose mode
has these fields: the CRC marker is `'!'` exactly when the top bit of `pkt[len+2]` is
clear and a space otherwise; the RSSI is `rawRssi / 2 - 71` with `rawRssi` the byte
`pkt[len+1]` read as a signed 8-bit value and the division truncating toward zero; the
LQI is the low 7 bits of `pkt[len+2]`; the hex field is `pkt[12..15]` as two upper-case
hex digits each, joined by `'-'`, with no hyphen after the last. -/
theorem printPacket_trace_fields (lib : Formatter) (cfg : Config) (pkt : Buf) (hw : PrintIn)
    (s : St) (hv : cfg.do_verbose = true) (hlen : byteAt pkt 0 ≤ 18) :
    (printPacket lib cfg pkt hw s).log
        = s.log
          ++ usbText cfg
              (lib "%lu \t" [((hw.getMs % 2 ^ 32 : Nat) : Int)]
                ++ [if byteAt pkt (byteAt pkt 0 + 2) / 128 = 0 then '!'.toNat else ' '.toNat,
                    ' '.toNat]
                ++ lib "R:%4d "
                    [Int.tdiv
                        (if byteAt pkt (byteAt pkt 0 + 1) < 128
                          then (byteAt pkt (byteAt pkt 0 + 1) : Int)
                          else (byteAt pkt (byteAt pkt 0 + 1) : Int) - 256) 2 - 71]
                ++ lib "L:%4d " [((byteAt pkt (byteAt pkt 0 + 2) % 128 : Nat) : Int)]
                ++ lib "O:%4d " [((hw.FREQEST % 256 : Nat) : Int)]
                ++ lib "C:%4d " [((s.CHANNR : Nat) : Int)]
                ++ lib "s:%4d " [((byteAt pkt 11 : Nat) : Int)]
                ++ [hexDigit (byteAt pkt 12 / 16), hexDigit (byteAt pkt 12 % 16), '-'.toNat,
                    hexDigit (byteAt pkt 13 / 16), hexDigit (byteAt pkt 13 % 16), '-'.toNat,
                    hexDigit (byteAt pkt 14 / 16), hexDigit (byteAt pkt 14 % 16), '-'.toNat,
                    hexDigit (byteAt pkt 15 / 16), hexDigit (byteAt pkt 15 % 16)]
                ++ lib "\t%lu \t%lu"
                    [((dDecode 12 pkt : Nat) : Int), ((dDecode 14 pkt * 2 : Nat) : Int)]
                ++ ['\r'.toNat, '\n'.toNat])
          ++ (if cfg.usbEnabled then [] else uartFrame pkt)
      ∧ byteAt pkt 0 + 2 < 21 := by
  refine ⟨?_, by omega⟩
  rw [printPacket_eq]
  simp only [printPacketEvents, traceChars, hv, if_true,
    marker_eq _ (byteAt_lt pkt _), nibble_hi _ (byteAt_lt pkt _), nibble_lo _ (byteAt_lt pkt _),
    and_7F_eq, int8_byte _ (byteAt_lt pkt _), double_no_wrap, List.append_assoc]

theorem printPacket_trace_fields_witness :
    ((⟨true, true⟩ : Config).do_verbose = true ∧ byteAt test_pkt 0 ≤ 18)
      ∧ byteAt test_pkt 0 + 2 < 21 :=
  ⟨⟨rfl, by decide⟩,
    (printPacket_trace_fields (fun _ _ => []) ⟨true, true⟩ test_pkt ⟨0, 0⟩ ⟨[], 0, []⟩ rfl
      (by decide)).2⟩

/-! ## Capture attempts: release, copy, frequency-offset table -/

theorem completes_split (ms : Nat) (hw : WaitIn) (h : hw.completes ms = true) :
    hw.swap.reachesIdle = true ∧ ∃ o, hw.outcome ms = some o := by
  unfold WaitIn.completes at h
  rw [Bool.and_eq_true] at h
  refine ⟨h.1, ?_⟩
  cases ho : hw.outcome ms with
  | none => rw [ho] at h; simp at h
  | some o => exact ⟨o, rfl⟩

theorem count_release_swapEvents (lib : Formatter) (cfg : Config) (ch : Nat) (hw : SwapIn)
    (offset : Nat) :
    (swapEvents lib cfg ch hw offset).count Ev.radioQueueRxDoneWithPacket = 0 := by
  rw [List.count_eq_zero]
  intro hm
  have hf : Ev.radioQueueRxDoneWithPacket ∈
      (swapEvents lib cfg ch hw offset).filter (fun e => !e.passive) :=
    List.mem_filter.2 ⟨hm, rfl⟩
  rw [swapEvents_radio] at hf
  rcases List.mem_append.1 hf with h | h
  · have := List.eq_of_mem_replicate h
    simp at this
  · simp at h

/-- C4: in every `WaitForPacket` call that runs to its `return`, the release
`radioQueueRxDoneWithPacket()` is called exactly once if the poll loop met a packet
(CRC passed or failed) and not at all if the call ended by timeout; when it is called
it is the last thing the call does, so a call takes and releases at most one packet. -/
theorem WaitForPacket_releases_once (lib : Formatter) (cfg : Config) (ms ch : Nat) (res : Buf)
    (hw : WaitIn) (s : St) (h : hw.completes ms = true) :
    ∃ o r res2 s2 E, hw.outcome ms = some o
      ∧ WaitForPacket lib cfg ms ch res hw s = some (r, res2, s2)
      ∧ s2.log = s.log ++ E
      ∧ E.count Ev.radioQueueRxDoneWithPacket = (if o.isPacket then 1 else 0)
      ∧ (o.isPacket = true → E.getLast? = some Ev.radioQueueRxDoneWithPacket)
      ∧ E.count Ev.radioQueueRxDoneWithPacket ≤ 1 := by
  obtain ⟨hr, o, ho⟩ := completes_split ms hw h
  obtain ⟨E0, hE0, hW⟩ := WaitForPacket_some lib cfg ms ch res hw s o hr ho
  have c0 := count_release_passive E0 hE0
  have c1 := fun offset => count_release_swapEvents lib cfg ch hw.swap offset
  cases o with
  | timeout =>
    refine ⟨_, _, _, _, swapEvents lib cfg ch hw.swap (s.fOffset.getD ch 0) ++ E0, ho, hW, ?_,
      ?_, ?_, ?_⟩
    · simp [List.append_assoc]
    · simp [Outcome.isPacket, List.count_append, c0, c1]
    · intro hp; simp [Outcome.isPacket] at hp
    · simp [List.count_append, c0, c1]
  | crcFailed rx =>
    refine ⟨_, _, _, _, swapEvents lib cfg ch hw.swap (s.fOffset.getD ch 0) ++ E0
      ++ [Ev.radioQueueRxDoneWithPacket], ho, hW, ?_, ?_, ?_, ?_⟩
    · simp [List.append_assoc]
    · simp [Outcome.isPacket, List.count_append, c0, c1]
    · intro _; simp
    · simp [List.count_append, c0, c1]
  | valid rx =>
    refine ⟨_, _, _, _, swapEvents lib cfg ch hw.swap (s.fOffset.getD ch 0) ++ E0
      ++ [Ev.radioQueueRxDoneWithPacket], ho, hW, ?_, ?_, ?_, ?_⟩
    · simp [List.append_assoc]
    · simp [Outcome.isPacket, List.count_append, c0, c1]
    · intro _; simp
    · simp [List.count_append, c0, c1]

/-- C5: for every `WaitForPacket` call that runs to its `return`: if the packet met
passed CRC, the result buffer afterwards holds the first 21 bytes of the queue packet
(and is untouched beyond them); if it failed CRC, or the call timed out, the result
buffer and the whole table `fOffset` are as before the call. -/
theorem WaitForPacket_result_buffer (lib : Formatter) (cfg : Config) (ms ch : Nat) (res : Buf)
    (hw : WaitIn) (s : St) (h : hw.completes ms = true) :
    ∃ o r res2 s2, hw.outcome ms = some o
      ∧ WaitForPacket lib cfg ms ch res hw s = some (r, res2, s2)
      ∧ match o with
        | Outcome.valid rx =>
          (∀ i, i < 21 → res2 i = rx.packet i) ∧ (∀ i, 21 ≤ i → res2 i = res i)
        | Outcome.crcFailed _ => res2 = res ∧ s2.fOffset = s.fOffset
        | Outcome.timeout => res2 = res ∧ s2.fOffset = s.fOffset := by
  obtain ⟨hr, o, ho⟩ := completes_split ms hw h
  obtain ⟨E0, _, hW⟩ := WaitForPacket_some lib cfg ms ch res hw s o hr ho
  refine ⟨o, _, _, _, ho, hW, ?_⟩
  cases o with
  | timeout => exact ⟨rfl, rfl⟩
  | crcFailed rx => exact ⟨rfl, rfl⟩
  | valid rx =>
    constructor
    · intro i hi
      simp [captureResult, memcpy, hi]
    · intro i hi
      have : ¬ i < 21 := by omega
      simp [captureResult, memcpy, this]

theorem WaitForPacket_releases_once_witness :
    (waitPacket false 3).completes 0 = true
      ∧ (WaitForPacket silentLib ⟨true, true⟩ 0 1 (fun _ => 0) (waitPacket false 3)
          St.startup).isSome = true :=
  ⟨by decide,
    match WaitForPacket_releases_once silentLib ⟨true, true⟩ 0 1 (fun _ => 0)
      (waitPacket false 3) St.startup (by decide) with
    | ⟨_, _, _, _, _, _, hW, _⟩ => by rw [hW]; rfl⟩

theorem WaitForPacket_result_buffer_witness :
    (waitPacket true 3).completes 600 = true
      ∧ (WaitForPacket silentLib ⟨false, false⟩ 600 2 (fun _ => 0) (waitPacket true 3)
          St.startup).isSome = true :=
  ⟨by decide,
    match WaitForPacket_result_buffer silentLib ⟨false, false⟩ 600 2 (fun _ => 0)
      (waitPacket true 3) St.startup (by decide) with
    | ⟨_, _, _, _, _, hW, _⟩ => by rw [hW]; rfl⟩

theorem getD_set (l : List Nat) (i j v : Nat) :
    (l.set i v).getD j 0 = if i = j ∧ i < l.length then v else l.getD j 0 := by
  simp only [List.getD_eq_getElem?_getD, List.getElem?_set]
  by_cases hij : i = j
  · subst hij
    by_cases hl : i < l.length
    · simp [hl]
    · have : l.length ≤ i := by omega
      simp [hl, List.getElem?_eq_none this]
  · simp [hij]

theorem captureAll_table (lib : Formatter) (cfg : Config) :
    ∀ (attempts : List Attempt) (res : Buf) (s : St),
      (∀ a ∈ attempts, a.hw.completes a.milliseconds = true) →
      (∀ c, s.fOffset.getD c 0 < 256) →
      ∃ res1 s1, captureAll lib cfg attempts res s = some (res1, s1)
        ∧ s1.fOffset.length = s.fOffset.length
        ∧ ∀ c, c < s.fOffset.length →
            s1.fOffset.getD c 0
              = (s.fOffset.getD c 0 + (validReadings c attempts).sum) % 256 := by
  intro attempts
  induction attempts with
  | nil =>
    intro res s _ hb
    refine ⟨res, s, rfl, rfl, ?_⟩
    intro c _
    have := hb c
    simp only [validReadings, List.sum_nil, Nat.add_zero]
    omega
  | cons a rest ih =>
    intro res s hdone hb
    obtain ⟨hr, o, ho⟩ := completes_split _ _ (hdone a (List.mem_cons_self _ _))
    obtain ⟨E, _, hW⟩ := WaitForPacket_some lib cfg a.milliseconds a.channel res a.hw s o hr ho
    have hrest : ∀ b ∈ rest, b.hw.completes b.milliseconds = true :=
      fun b hb => hdone b (List.mem_cons_of_mem _ hb)
    unfold captureAll
    rw [hW]
    cases o with
    | timeout =>
      simp only [captureResult]
      obtain ⟨res1, s1, h1, h2, h3⟩ := ih res
        { fOffset := s.fOffset, CHANNR := channels.getD a.channel 0,
          log := s.log ++ swapEvents lib cfg a.channel a.hw.swap (s.fOffset.getD a.channel 0)
            ++ E } hrest hb
      refine ⟨res1, s1, h1, h2, ?_⟩
      intro c hc
      rw [h3 c hc]
      simp only [validReadings, ho]
    | crcFailed rx =>
      simp only [captureResult]
      obtain ⟨res1, s1, h1, h2, h3⟩ := ih res
        { fOffset := s.fOffset, CHANNR := channels.getD a.channel 0,
          log := s.log ++ swapEvents lib cfg a.channel a.hw.swap (s.fOffset.getD a.channel 0)
            ++ E ++ [Ev.radioQueueRxDoneWithPacket] } hrest hb
      refine ⟨res1, s1, h1, h2, ?_⟩
      intro c hc
      rw [h3 c hc]
      simp only [validReadings, ho]
    | valid rx =>
      simp only [captureResult]
      have hb2 : ∀ c, (s.fOffset.set a.channel
          ((s.fOffset.getD a.channel 0 + rx.FREQEST % 256) % 256)).getD c 0 < 256 := by
        intro c
        have := hb c
        rw [getD_set]
        split
        · exact Nat.mod_lt _ (by decide)
        · exact this
      obtain ⟨res1, s1, h1, h2, h3⟩ := ih (memcpy res rx.packet 21)
        { fOffset := s.fOffset.set a.channel
            ((s.fOffset.getD a.channel 0 + rx.FREQEST % 256) % 256)
          CHANNR := channels.getD a.channel 0
          log := s.log ++ swapEvents lib cfg a.channel a.hw.swap (s.fOffset.getD a.channel 0)
            ++ E ++ [Ev.radioQueueRxDoneWithPacket] } hrest hb2
      refine ⟨res1, s1, h1, ?_, ?_⟩
      · rw [h2]; simp
      · intro c hc
        have hc2 : c < (s.fOffset.set a.channel
            ((s.fOffset.getD a.channel 0 + rx.FREQEST % 256) % 256)).length := by
          simpa using hc
        rw [h3 c hc2]
        simp only [getD_set, validReadings, ho]
        by_cases hac : a.channel = c
        · subst hac
          simp only [true_and, hc, if_true, List.sum_cons]
          omega
        · simp only [hac, false_and, if_false]

theorem fOffset_init_lt (c : Nat) : fOffset_init.getD c 0 < 256 :=
  match c with
  | 0 => by decide
  | 1 => by decide
  | 2 => by decide
  | 3 => by decide
  | _ + 4 => by simp [fOffset_init]

theorem fsctrl0Writes_replicate_RFST (n : Nat) :
    fsctrl0Writes (List.replicate n (Ev.RFST 4)) = [] := by
  induction n with
  | zero => rfl
  | succ n ih => simp [List.replicate_succ, fsctrl0Writes]

theorem fsctrl0Writes_swapEvents (lib : Formatter) (cfg : Config) (ch : Nat) (hw : SwapIn)
    (offset : Nat) : fsctrl0Writes (swapEvents lib cfg ch hw offset) = [offset] := by
  unfold swapEvents
  have t := fun cs => fsctrl0Writes_passive _ (passive_usbText cfg cs)
  have f3 : ∀ a b c, fsctrl0Writes [Ev.FSCTRL0 a, Ev.CHANNR b, Ev.RFST c] = [a] :=
    fun _ _ _ => rfl
  have f0 : fsctrl0Writes [] = [] := rfl
  cases hv : cfg.do_verbose <;>
    simp only [fsctrl0Writes_append, t, fsctrl0Writes_replicate_RFST, f3, f0, List.append_nil,
      List.nil_append, if_true, if_false, Bool.false_eq_true]

theorem int8_sum_mod (l : List Nat) :
    ((l.map int8).sum) % 256 = ((l.sum : Nat) : Int) % 256 := by
  induction l with
  | nil => rfl
  | cons b l ih =>
    simp only [List.map_cons, List.sum_cons, Nat.cast_add]
    have hb : int8 b % 256 = (b : Int) % 256 := by
      unfold int8
      split <;> omega
    omega

/-- C2 (amended): for every channel `c < 4` and every sequence of capture attempts on
channels `0..3` that run to their `return`, started with the initial offset table, the
value the next `swap_channel(c)` writes to `FSCTRL0` is `seedOffset[c]` plus the sum of
the frequency-error bytes of the CRC-valid receptions on channel `c`, reduced modulo 256
(the table holds `uint8`); CRC-failed receptions, timeouts and receptions on other
channels contribute nothing.  Reading the error bytes as signed 8-bit values gives the
same value modulo 256. -/
theorem offset_accumulates_mod_256 (lib : Formatter) (cfg : Config) (attempts : List Attempt)
    (res : Buf) (s : St) (c : Nat) (sw : SwapIn)
    (hc : c < 4) (hs : s.fOffset = fOffset_init)
    (_hch : ∀ a ∈ attempts, a.channel < 4)
    (hdone : ∀ a ∈ attempts, a.hw.completes a.milliseconds = true)
    (hidle : sw.reachesIdle = true) :
    ∃ res1 s1 s2, captureAll lib cfg attempts res s = some (res1, s1)
      ∧ swap_channel lib cfg c sw s1 = some s2
      ∧ fsctrl0Writes s2.log
          = fsctrl0Writes s1.log
              ++ [(fOffset_init.getD c 0 + (validReadings c attempts).sum) % 256]
      ∧ (((fOffset_init.getD c 0 + (validReadings c attempts).sum) % 256 : Nat) : Int)
          = ((fOffset_init.getD c 0 : Int) + ((validReadings c attempts).map int8).sum) % 256 := by
  have hb : ∀ k, s.fOffset.getD k 0 < 256 := by
    intro k
    rw [hs]
    exact fOffset_init_lt k
  obtain ⟨res1, s1, h1, _, h3⟩ := captureAll_table lib cfg attempts res s hdone hb
  have hlen : c < s.fOffset.length := by rw [hs]; exact hc
  refine ⟨res1, s1,
    { fOffset := s1.fOffset
      CHANNR := channels.getD c 0
      log := s1.log ++ swapEvents lib cfg c sw (s1.fOffset.getD c 0) }, h1, ?_, ?_, ?_⟩
  · rw [swap_channel_eq, hidle]
    rfl
  · simp only [fsctrl0Writes_append, fsctrl0Writes_swapEvents]
    rw [h3 c hlen, hs]
  · have := int8_sum_mod (validReadings c attempts)
    omega

theorem offset_accumulates_mod_256_witness :
    ((1 < 4 ∧ St.startup.fOffset = fOffset_init)
        ∧ (∀ a ∈ [(⟨0, 1, waitPacket true 250⟩ : Attempt), ⟨600, 1, waitPacket false 9⟩,
              ⟨600, 2, waitTimeout⟩, ⟨600, 1, waitPacket true 250⟩], a.channel < 4)
        ∧ sampleSwap.reachesIdle = true)
      ∧ ∃ res1 s1 s2,
          captureAll silentLib ⟨true, true⟩
              [(⟨0, 1, waitPacket true 250⟩ : Attempt), ⟨600, 1, waitPacket false 9⟩,
                ⟨600, 2, waitTimeout⟩, ⟨600, 1, waitPacket true 250⟩]
              (fun _ => 0) St.startup = some (res1, s1)
            ∧ swap_channel silentLib ⟨true, true⟩ 1 sampleSwap s1 = some s2
            ∧ fsctrl0Writes s2.log
                = fsctrl0Writes s1.log
                    ++ [(fOffset_init.getD 1 0
                          + (validReadings 1
                              [(⟨0, 1, waitPacket true 250⟩ : Attempt),
                                ⟨600, 1, waitPacket false 9⟩, ⟨600, 2, waitTimeout⟩,
                                ⟨600, 1, waitPacket true 250⟩]).sum) % 256] :=
  ⟨⟨⟨by decide, rfl⟩, by decide, by decide⟩,
    match offset_accumulates_mod_256 silentLib ⟨true, true⟩ _ (fun _ => 0) St.startup 1
      sampleSwap (by decide) rfl (by decide) (by decide) (by decide) with
    | ⟨res1, s1, s2, h1, h2, h3, _⟩ => ⟨res1, s1, s2, h1, h2, h3⟩⟩

/-- C2 as stated fails: after one CRC-valid reception on channel 0 whose frequency-error
byte is 50, the next `swap_channel(0)` writes 0 to `FSCTRL0`, whereas
`seedOffset[0] + 50 = 0xCE + 50 = 256`. -/
theorem offset_sum_wraps :
    ((captureAll silentLib ⟨false, false⟩ [⟨0, 0, waitPacket true 50⟩] (fun _ => 0)
          St.startup).bind fun r =>
        (swap_channel silentLib ⟨false, false⟩ 0 sampleSwap r.2).map fun s2 =>
          (fsctrl0Writes s2.log).drop (fsctrl0Writes r.2.log).length) = some [0]
      ∧ validReadings 0 [⟨0, 0, waitPacket true 50⟩] = [50]
      ∧ fOffset_init.getD 0 0 + (validReadings 0 [⟨0, 0, waitPacket true 50⟩]).sum = 256 := by
  decide

/-! ## Capture scheduler: proofs -/

theorem channrWrites_append (a b : List Ev) :
    channrWrites (a ++ b) = channrWrites a ++ channrWrites b := by
  simp [channrWrites, List.filterMap_append]

theorem sleepCalls_append (a b : List Ev) :
    sleepCalls (a ++ b) = sleepCalls a ++ sleepCalls b := by
  simp [sleepCalls, List.filterMap_append]

theorem channrWrites_passive (E : List Ev) (h : ∀ e ∈ E, e.passive = true) :
    channrWrites E = [] := by
  induction E with
  | nil => rfl
  | cons e E ih =>
    have he := h e (List.mem_cons_self _ _)
    have ih2 := ih fun x hx => h x (List.mem_cons_of_mem _ hx)
    cases e <;> simp_all [channrWrites, Ev.passive]

theorem sleepCalls_passive (E : List Ev) (h : ∀ e ∈ E, e.passive = true) :
    sleepCalls E = [] := by
  induction E with
  | nil => rfl
  | cons e E ih =>
    have he := h e (List.mem_cons_self _ _)
    have ih2 := ih fun x hx => h x (List.mem_cons_of_mem _ hx)
    cases e <;> simp_all [sleepCalls, Ev.passive]

theorem channrWrites_replicate_RFST (n : Nat) :
    channrWrites (List.replicate n (Ev.RFST 4)) = [] := by
  induction n with
  | zero => rfl
  | succ n ih => simp [List.replicate_succ, channrWrites]

theorem sleepCalls_replicate_RFST (n : Nat) :
    sleepCalls (List.replicate n (Ev.RFST 4)) = [] := by
  induction n with
  | zero => rfl
  | succ n ih => simp [List.replicate_succ, sleepCalls]

theorem channrWrites_swapEvents (lib : Formatter) (cfg : Config) (ch : Nat) (hw : SwapIn)
    (offset : Nat) : channrWrites (swapEvents lib cfg ch hw offset) = [channels.getD ch 0] := by
  unfold swapEvents
  have t := fun cs => channrWrites_passive _ (passive_usbText cfg cs)
  have f3 : ∀ a b c, channrWrites [Ev.FSCTRL0 a, Ev.CHANNR b, Ev.RFST c] = [b] :=
    fun _ _ _ => rfl
  have f0 : channrWrites [] = [] := rfl
  cases hv : cfg.do_verbose <;>
    simp only [channrWrites_append, t, channrWrites_replicate_RFST, f3, f0, List.append_nil,
      List.nil_append, if_true, if_false, Bool.false_eq_true]

theorem sleepCalls_swapEvents (lib : Formatter) (cfg : Config) (ch : Nat) (hw : SwapIn)
    (offset : Nat) : sleepCalls (swapEvents lib cfg ch hw offset) = [] := by
  unfold swapEvents
  have t := fun cs => sleepCalls_passive _ (passive_usbText cfg cs)
  have f3 : ∀ a b c, sleepCalls [Ev.FSCTRL0 a, Ev.CHANNR b, Ev.RFST c] = [] :=
    fun _ _ _ => rfl
  have f0 : sleepCalls [] = [] := rfl
  cases hv : cfg.do_verbose <;>
    simp only [sleepCalls_append, t, sleepCalls_replicate_RFST, f3, f0, List.append_nil,
      List.nil_append, if_true, if_false, Bool.false_eq_true]

theorem channrWrites_sleepEvents (lib : Formatter) (cfg : Config) (hw : CycleIn) :
    channrWrites (sleepEvents lib cfg hw) = [] := by
  unfold sleepEvents
  have t := fun cs => channrWrites_passive _ (passive_usbText cfg cs)
  have f1 : ∀ n, channrWrites [Ev.delayMs n] = [] := fun _ => rfl
  have f2 : ∀ n, channrWrites [Ev.goToSleep n] = [] := fun _ => rfl
  have f0 : channrWrites [] = [] := rfl
  cases hv : cfg.do_verbose <;>
    simp only [channrWrites_append, t, f1, f2, f0, List.append_nil, List.nil_append, if_true,
      if_false, Bool.false_eq_true]

theorem sleepCalls_sleepEvents (lib : Formatter) (cfg : Config) (hw : CycleIn) :
    sleepCalls (sleepEvents lib cfg hw) = [270] := by
  unfold sleepEvents
  have t := fun cs => sleepCalls_passive _ (passive_usbText cfg cs)
  have f1 : ∀ n, sleepCalls [Ev.delayMs n] = [] := fun _ => rfl
  have f2 : ∀ n, sleepCalls [Ev.goToSleep n] = [n] := fun _ => rfl
  have f0 : sleepCalls [] = [] := rfl
  cases hv : cfg.do_verbose <;>
    simp only [sleepCalls_append, t, f1, f2, f0, List.append_nil, List.nil_append, if_true,
      if_false, Bool.false_eq_true]

/-- One completing capture attempt, as seen by the scheduler: the buffer it leaves, and
its writes to `CHANNR` and calls to `goToSleep`. -/
theorem WaitForPacket_step (lib : Formatter) (cfg : Config) (ms ch : Nat) (res : Buf)
    (hw : WaitIn) (s : St) (h : hw.completes ms = true) :
    ∃ r s2, WaitForPacket lib cfg ms ch res hw s
        = some (r, storeCapture (hw.outcome ms) res, s2)
      ∧ channrWrites s2.log = channrWrites s.log ++ [channels.getD ch 0]
      ∧ sleepCalls s2.log = sleepCalls s.log := by
  obtain ⟨hr, o, ho⟩ := completes_split ms hw h
  obtain ⟨E0, hE0, hW⟩ := WaitForPacket_some lib cfg ms ch res hw s o hr ho
  have c0 := channrWrites_passive E0 hE0
  have z0 := sleepCalls_passive E0 hE0
  have c1 := fun offset => channrWrites_swapEvents lib cfg ch hw.swap offset
  have z1 := fun offset => sleepCalls_swapEvents lib cfg ch hw.swap offset
  have cr : channrWrites [Ev.radioQueueRxDoneWithPacket] = [] := rfl
  have zr : sleepCalls [Ev.radioQueueRxDoneWithPacket] = [] := rfl
  rw [hW, ho]
  cases o with
  | timeout =>
    refine ⟨_, _, rfl, ?_, ?_⟩
    · simp only [captureResult, channrWrites_append, c0, c1, List.append_nil]
    · simp only [captureResult, sleepCalls_append, z0, z1, List.append_nil]
  | crcFailed rx =>
    refine ⟨_, _, rfl, ?_, ?_⟩
    · simp only [captureResult, channrWrites_append, c0, c1, cr, List.append_nil]
    · simp only [captureResult, sleepCalls_append, z0, z1, zr, List.append_nil]
  | valid rx =>
    refine ⟨_, _, rfl, ?_, ?_⟩
    · simp only [captureResult, channrWrites_append, c0, c1, cr, List.append_nil]
    · simp only [captureResult, sleepCalls_append, z0, z1, zr, List.append_nil]

theorem printPacketIfNeeded_unroll (lib : Formatter) (cfg : Config) (hw : CycleIn) (s : St) :
    printPacketIfNeeded lib cfg hw s
      = ((WaitForPacket lib cfg 0 0 (memset hw.goodPacket0 0 21) (hw.wait 0)
            (s.emit (Ev.LED_RED false))).bind fun r0 =>
          (WaitForPacket lib cfg 600 1 r0.2.1 (hw.wait 1) r0.2.2).bind fun r1 =>
          (WaitForPacket lib cfg 600 2 r1.2.1 (hw.wait 2) r1.2.2).bind fun r2 =>
          (WaitForPacket lib cfg 600 3 r2.2.1 (hw.wait 3) r2.2.2).bind fun r3 =>
            some { printPacket lib cfg r3.2.1 hw.summary r3.2.2 with
              log := (printPacket lib cfg r3.2.1 hw.summary r3.2.2).log
                ++ sleepEvents lib cfg hw }) := by
  unfold printPacketIfNeeded
  have hrange : List.range 4 = [0, 1, 2, 3] := by decide
  simp only [hrange, List.foldlM_cons, List.foldlM_nil]
  cases h0 : WaitForPacket lib cfg 0 0 (memset hw.goodPacket0 0 21) (hw.wait 0)
      (s.emit (Ev.LED_RED false)) with
  | none => rfl
  | some r0 =>
    cases h1 : WaitForPacket lib cfg 600 1 r0.2.1 (hw.wait 1) r0.2.2 with
    | none => simp [bind, h1]
    | some r1 =>
      cases h2 : WaitForPacket lib cfg 600 2 r1.2.1 (hw.wait 2) r1.2.2 with
      | none => simp [bind, h1, h2]
      | some r2 =>
        cases h3 : WaitForPacket lib cfg 600 3 r2.2.1 (hw.wait 3) r2.2.2 with
        | none => simp [bind, h1, h2, h3]
        | some r3 =>
          simp only [bind, h1, h2, h3, Option.bind, pure]
          cases hv : cfg.do_verbose <;>
            simp [sleepEvents, printf_eq, emit_eq, List.append_assoc, hv]

theorem cycle_completes_split (hw : CycleIn) (hc : hw.completes = true) :
    (hw.wait 0).completes 0 = true ∧ (hw.wait 1).completes 600 = true
      ∧ (hw.wait 2).completes 600 = true ∧ (hw.wait 3).completes 600 = true := by
  simpa [CycleIn.completes, cycleDelay] using hc

theorem cycle_run (lib : Formatter) (cfg : Config) (hw : CycleIn) (s : St)
    (hc : hw.completes = true) :
    ∃ s3 : St, printPacketIfNeeded lib cfg hw s
        = some { fOffset := s3.fOffset
                 CHANNR := s3.CHANNR
                 log := s3.log
                   ++ printPacketEvents lib cfg hw.summaryBuffer hw.summary s3.CHANNR
                   ++ sleepEvents lib cfg hw }
      ∧ channrWrites s3.log = channrWrites s.log ++ [0, 100, 199, 209]
      ∧ sleepCalls s3.log = sleepCalls s.log := by
  obtain ⟨c0, c1, c2, c3⟩ := cycle_completes_split hw hc
  obtain ⟨r0, s0, h0, w0, z0⟩ := WaitForPacket_step lib cfg 0 0 (memset hw.goodPacket0 0 21)
    (hw.wait 0) (s.emit (Ev.LED_RED false)) c0
  obtain ⟨r1, s1, h1, w1, z1⟩ := WaitForPacket_step lib cfg 600 1
    (storeCapture ((hw.wait 0).outcome 0) (memset hw.goodPacket0 0 21)) (hw.wait 1) s0 c1
  obtain ⟨r2, s2, h2, w2, z2⟩ := WaitForPacket_step lib cfg 600 2
    (storeCapture ((hw.wait 1).outcome 600)
      (storeCapture ((hw.wait 0).outcome 0) (memset hw.goodPacket0 0 21))) (hw.wait 2) s1 c2
  obtain ⟨r3, s3, h3, w3, z3⟩ := WaitForPacket_step lib cfg 600 3
    (storeCapture ((hw.wait 2).outcome 600)
      (storeCapture ((hw.wait 1).outcome 600)
        (storeCapture ((hw.wait 0).outcome 0) (memset hw.goodPacket0 0 21)))) (hw.wait 3) s2 c3
  refine ⟨s3, ?_, ?_, ?_⟩
  · rw [printPacketIfNeeded_unroll, h0, Option.some_bind, h1, Option.some_bind, h2,
      Option.some_bind, h3, Option.some_bind, printPacket_eq]
    rfl
  · rw [w3, w2, w1, w0]
    simp [channrWrites, channels, St.emit]
  · rw [z3, z2, z1, z0]
    simp [sleepCalls, St.emit]

theorem captureOutcome_zero_never_times_out (start : Nat) (polls : List PollIn) :
    captureOutcome 0 start polls ≠ some Outcome.timeout := by
  induction polls with
  | nil => simp [captureOutcome]
  | cons p rest ih =>
    unfold captureOutcome
    simp only [ne_eq, not_true_eq_false, false_and, if_false]
    cases hrx : p.rx with
    | none => exact ih
    | some rx =>
      cases hcrc : rx.radioCrcPassed <;> simp [hcrc]

theorem storeCapture_other (o : Option Outcome) (buf : Buf)
    (h : ∀ rx, o ≠ some (Outcome.valid rx)) : storeCapture o buf = buf := by
  cases o with
  | none => rfl
  | some o =>
    cases o with
    | valid rx => exact absurd rfl (h rx)
    | crcFailed rx => rfl
    | timeout => rfl

/-- C3: a scheduler cycle is exactly the sequence `WaitForPacket(0, 0, goodPacket)`,
`WaitForPacket(600, 1, ..)`, `WaitForPacket(600, 2, ..)`, `WaitForPacket(600, 3, ..)`,
one summary `printPacket(goodPacket)`, one `goToSleep(270)`, whatever each attempt
returns; a timeout of 0 never expires; and when the four attempts return, the cycle
writes the channel numbers of channels 0, 1, 2, 3 in this order and calls `goToSleep`
once, with 270. -/
theorem printPacketIfNeeded_sequence (lib : Formatter) (cfg : Config) (hw : CycleIn) (s : St) :
    printPacketIfNeeded lib cfg hw s
        = ((WaitForPacket lib cfg 0 0 (memset hw.goodPacket0 0 21) (hw.wait 0)
              (s.emit (Ev.LED_RED false))).bind fun r0 =>
            (WaitForPacket lib cfg 600 1 r0.2.1 (hw.wait 1) r0.2.2).bind fun r1 =>
            (WaitForPacket lib cfg 600 2 r1.2.1 (hw.wait 2) r1.2.2).bind fun r2 =>
            (WaitForPacket lib cfg 600 3 r2.2.1 (hw.wait 3) r2.2.2).bind fun r3 =>
              some { printPacket lib cfg r3.2.1 hw.summary r3.2.2 with
                log := (printPacket lib cfg r3.2.1 hw.summary r3.2.2).log
                  ++ sleepEvents lib cfg hw })
      ∧ (sleepEvents lib cfg hw).filter (fun e => !e.passive)
          = (if cfg.do_verbose then [Ev.delayMs 1000] else []) ++ [Ev.goToSleep 270]
      ∧ (∀ start polls, captureOutcome 0 start polls ≠ some Outcome.timeout)
      ∧ (hw.completes = true →
          ∃ s2, printPacketIfNeeded lib cfg hw s = some s2
            ∧ channrWrites s2.log = channrWrites s.log ++ [0, 100, 199, 209]
            ∧ sleepCalls s2.log = sleepCalls s.log ++ [270]) := by
  refine ⟨printPacketIfNeeded_unroll lib cfg hw s, ?_, captureOutcome_zero_never_times_out, ?_⟩
  · unfold sleepEvents
    have t := fun cs => filter_passive _ (passive_usbText cfg cs)
    have f1 : ∀ n, [Ev.delayMs n].filter (fun e => !e.passive) = [Ev.delayMs n] :=
      fun _ => rfl
    have f2 : ∀ n, [Ev.goToSleep n].filter (fun e => !e.passive) = [Ev.goToSleep n] :=
      fun _ => rfl
    cases hv : cfg.do_verbose <;>
      simp only [List.filter_append, t, f1, f2, List.append_nil, List.nil_append, if_true,
        if_false, Bool.false_eq_true, List.filter_nil]
  · intro hc
    obtain ⟨s3, h, w, z⟩ := cycle_run lib cfg hw s hc
    refine ⟨_, h, ?_, ?_⟩
    · simp only [channrWrites_append, w, channrWrites_sleepEvents,
        channrWrites_passive _ (passive_printPacketEvents _ _ _ _ _), List.append_nil]
    · simp only [sleepCalls_append, z, sleepCalls_sleepEvents,
        sleepCalls_passive _ (passive_printPacketEvents _ _ _ _ _), List.append_nil]

theorem printPacketIfNeeded_sequence_witness :
    (sampleCycle (waitPacket true 3)).completes = true
      ∧ ∃ s2, printPacketIfNeeded silentLib ⟨true, true⟩ (sampleCycle (waitPacket true 3))
            St.startup = some s2
          ∧ channrWrites s2.log = channrWrites St.startup.log ++ [0, 100, 199, 209]
          ∧ sleepCalls s2.log = sleepCalls St.startup.log ++ [270] :=
  ⟨by decide,
    (printPacketIfNeeded_sequence silentLib ⟨true, true⟩ (sampleCycle (waitPacket true 3))
      St.startup).2.2.2 (by decide)⟩

/-- C6 (amended): the buffer emitted in the EmitSummary step is local to one scheduler
cycle and zero-filled at the start of every cycle.  When the four attempts of a cycle
return, the summary `printPacket` is applied to that buffer; if no CRC-valid packet was
captured during the cycle it is all-zero, whatever earlier cycles captured; otherwise it
holds the first 21 bytes of the last CRC-valid capture of that cycle. -/
theorem summary_buffer_per_cycle (lib : Formatter) (cfg : Config) (hw : CycleIn) (s : St) :
    (hw.completes = true →
        ∃ s3 : St, printPacketIfNeeded lib cfg hw s
          = some { fOffset := s3.fOffset
                   CHANNR := s3.CHANNR
                   log := s3.log
                     ++ printPacketEvents lib cfg hw.summaryBuffer hw.summary s3.CHANNR
                     ++ sleepEvents lib cfg hw })
      ∧ ((∀ ch, ch < 4 → ∀ rx, hw.outcome ch ≠ some (Outcome.valid rx)) →
          ∀ i, i < 21 → hw.summaryBuffer i = 0)
      ∧ (∀ ch rx, ch < 4 → hw.outcome ch = some (Outcome.valid rx) →
          (∀ k, ch < k → k < 4 → ∀ rx2, hw.outcome k ≠ some (Outcome.valid rx2)) →
          ∀ i, i < 21 → hw.summaryBuffer i = rx.packet i) := by
  refine ⟨?_, ?_, ?_⟩
  · intro hc
    obtain ⟨s3, h, _, _⟩ := cycle_run lib cfg hw s hc
    exact ⟨s3, h⟩
  · intro hno i hi
    simp only [CycleIn.summaryBuffer, List.foldl_cons, List.foldl_nil,
      storeCapture_other _ _ (hno 0 (by decide)), storeCapture_other _ _ (hno 1 (by decide)),
      storeCapture_other _ _ (hno 2 (by decide)), storeCapture_other _ _ (hno 3 (by decide)),
      memset, hi, if_true]
  · intro ch rx hch hv hlater i hi
    have hstore : ∀ buf, storeCapture (some (Outcome.valid rx)) buf i = rx.packet i := by
      intro buf
      simp [storeCapture, memcpy, hi]
    interval_cases ch
    · simp only [CycleIn.summaryBuffer, List.foldl_cons, List.foldl_nil,
        storeCapture_other _ _ (hlater 1 (by decide) (by decide)),
        storeCapture_other _ _ (hlater 2 (by decide) (by decide)),
        storeCapture_other _ _ (hlater 3 (by decide) (by decide)), hv, hstore]
    · simp only [CycleIn.summaryBuffer, List.foldl_cons, List.foldl_nil,
        storeCapture_other _ _ (hlater 2 (by decide) (by decide)),
        storeCapture_other _ _ (hlater 3 (by decide) (by decide)), hv, hstore]
    · simp only [CycleIn.summaryBuffer, List.foldl_cons, List.foldl_nil,
        storeCapture_other _ _ (hlater 3 (by decide) (by decide)), hv, hstore]
    · simp only [CycleIn.summaryBuffer, List.foldl_cons, List.foldl_nil, hv, hstore]

theorem summary_buffer_per_cycle_witness :
    (sampleCycle (waitPacket false 3)).completes = true
      ∧ (∀ ch, ch < 4 → ∀ rx,
          (sampleCycle (waitPacket false 3)).outcome ch ≠ some (Outcome.valid rx))
      ∧ (sampleCycle (waitPacket false 3)).summaryBuffer 12 = 0
      ∧ (printPacketIfNeeded silentLib ⟨false, false⟩ (sampleCycle (waitPacket false 3))
          St.startup).isSome = true := by
  have hno : ∀ ch, ch < 4 → ∀ rx,
      (sampleCycle (waitPacket false 3)).outcome ch ≠ some (Outcome.valid rx) := by
    intro ch hch rx
    interval_cases ch <;> simp [CycleIn.outcome, sampleCycle, WaitIn.outcome, cycleDelay,
      waitPacket, waitTimeout, sampleWait, captureOutcome, sampleRx]
  refine ⟨by decide, hno, ?_, ?_⟩
  · exact (summary_buffer_per_cycle silentLib ⟨false, false⟩ (sampleCycle (waitPacket false 3))
      St.startup).2.1 hno 12 (by decide)
  · obtain ⟨s3, h⟩ := (summary_buffer_per_cycle silentLib ⟨false, false⟩
      (sampleCycle (waitPacket false 3)) St.startup).1 (by decide)
    rw [h]
    rfl

/-- C6 as stated fails: a first cycle captures a CRC-valid packet on channel 0 and its
summary sends the telemetry frame of that packet on the UART; the next cycle captures no
valid packet (a CRC failure, three timeouts) and its summary sends the all-zero frame,
not the contents written by the earlier cycle. -/
theorem summary_not_retained_across_cycles :
    ((printPacketIfNeeded silentLib ⟨false, false⟩ (sampleCycle (waitPacket true 0))
          St.startup).bind fun s1 =>
        (printPacketIfNeeded silentLib ⟨false, false⟩ (sampleCycle (waitPacket false 0))
            s1).map fun s2 =>
          (uartBytes s1.log, (uartBytes s2.log).drop (uartBytes s1.log).length))
      = some ([5, 0, 3, 14, 0, 6, 0, 3, 31, 128], [5, 0, 0, 0, 0, 6, 0, 0, 0, 0]) := by
  decide

end RadioSniffer
